import Mathlib

/-!
Verification of the bulk permission export/import plugin
(`src/plugins/bulk_perms.py`).

The development is a shallow embedding of the plugin's pure data
transformations.  Python machine integers are arbitrary-precision, so
permission bit sets are modelled as `Nat` bitmasks.  The plugin relies on a
few behaviours of the `discord.py` 1.7 library, which are modelled here
where the plugin depends on them:

* `discord.Permissions` is a bit set with one named attribute per flag; the
  class-dict iteration order of those flags is the canonical column order
  (`permFlags` below).
* `discord.PermissionOverwrite` is a tri-state (allow / deny / inherit)
  per-flag map.  `PermissionOverwrite.from_pair(allow, deny)` first sets
  every flag of `allow` to `True` and then sets every flag of `deny` to
  `False`, so a bit present in both masks ends up *denied*; bits outside
  the named flags are dropped.  `PermissionOverwrite.pair()` returns the
  two disjoint masks back.
* `getattr(discord.Permissions, name)` succeeds not only on flag names but
  on every other attribute of the class (`value`, `none`, `all`, methods,
  dunders, ...); `permsOtherAttrs` lists representative non-flag
  attributes used by the development.
* Discord objects (roles, members, channels) compare equal by id, and
  `guild.get_member` / `list.index` / dict keys use that equality.

Strings are Lean `String`s; the Python string primitives used by the
plugin (`startswith`, `removeprefix`, `split`, `int`, `str.format`) are
modelled on the underlying character lists.
-/

namespace BulkPerms

/-- Decidable equality for `Except`, needed to evaluate the importer on
concrete inputs. -/
instance {ε α : Type} [DecidableEq ε] [DecidableEq α] :
    DecidableEq (Except ε α)
  | .error e1, .error e2 =>
    if h : e1 = e2 then .isTrue (h ▸ rfl)
    else .isFalse (fun hc => h (Except.error.inj hc))
  | .error _, .ok _ => .isFalse (fun hc => Except.noConfusion hc)
  | .ok _, .error _ => .isFalse (fun hc => Except.noConfusion hc)
  | .ok a1, .ok a2 =>
    if h : a1 = a2 then .isTrue (h ▸ rfl)
    else .isFalse (fun hc => h (Except.ok.inj hc))

/-- `a AND NOT b` on `Nat` bitmasks (Python `a & ~b` on non-negative ints). -/
def landNot (a b : Nat) : Nat := a ^^^ (a &&& b)

theorem testBit_landNot (a b : Nat) (i : Nat) :
    (landNot a b).testBit i = (a.testBit i && !(b.testBit i)) := by
  unfold landNot
  rw [Nat.testBit_xor, Nat.testBit_land]
  cases a.testBit i <;> cases b.testBit i <;> rfl

/-- The permission flag table of `discord.Permissions` (discord.py 1.7),
in class-dict order: the column order of the CSV header, the iteration
order of `discord.Permissions()`, and the name table behind
`getattr(discord.Permissions, flag)`. -/
def permFlags : List (String × Nat) :=
  [("create_instant_invite", 1 <<< 0),
   ("kick_members", 1 <<< 1),
   ("ban_members", 1 <<< 2),
   ("administrator", 1 <<< 3),
   ("manage_channels", 1 <<< 4),
   ("manage_guild", 1 <<< 5),
   ("add_reactions", 1 <<< 6),
   ("view_audit_log", 1 <<< 7),
   ("priority_speaker", 1 <<< 8),
   ("stream", 1 <<< 9),
   ("read_messages", 1 <<< 10),
   ("send_messages", 1 <<< 11),
   ("send_tts_messages", 1 <<< 12),
   ("manage_messages", 1 <<< 13),
   ("embed_links", 1 <<< 14),
   ("attach_files", 1 <<< 15),
   ("read_message_history", 1 <<< 16),
   ("mention_everyone", 1 <<< 17),
   ("external_emojis", 1 <<< 18),
   ("view_guild_insights", 1 <<< 19),
   ("connect", 1 <<< 20),
   ("speak", 1 <<< 21),
   ("mute_members", 1 <<< 22),
   ("deafen_members", 1 <<< 23),
   ("move_members", 1 <<< 24),
   ("use_voice_activation", 1 <<< 25),
   ("change_nickname", 1 <<< 26),
   ("manage_nicknames", 1 <<< 27),
   ("manage_roles", 1 <<< 28),
   ("manage_webhooks", 1 <<< 29),
   ("manage_emojis", 1 <<< 30),
   ("use_slash_commands", 1 <<< 31),
   ("request_to_speak", 1 <<< 32)]

/-- Representative non-flag attributes of the `discord.Permissions` class:
`getattr(discord.Permissions, name)` succeeds on these as well (slot
descriptors, classmethods, methods and class variables).  The class has
further attributes (dunders inherited from `object`, ...) that behave the
same way; the development only needs that these particular names resolve. -/
def permsOtherAttrs : List String :=
  ["value", "none", "all", "all_channel", "general", "membership", "text",
   "voice", "stage", "advanced", "update", "handle_overwrite", "is_subset",
   "is_superset", "is_strict_subset", "is_strict_superset",
   "VALID_FLAGS", "DEFAULT_VALUE"]

/-- Union of all defined flag bits. -/
def validMask : Nat := (permFlags.map Prod.snd).foldl (· ||| ·) 0

/-- `discord.PermissionOverwrite`: a tri-state per-flag map, represented by
its two disjoint bit masks restricted to the defined flags.  `allow` holds
the flags set to `True`, `deny` the flags set to `False`; a flag in
neither mask is inherited. -/
structure Overwrite where
  allow : Nat
  deny : Nat
deriving DecidableEq, Repr

/-- `PermissionOverwrite.pair()`. -/
def Overwrite.pair (o : Overwrite) : Nat × Nat := (o.allow, o.deny)

/-- `PermissionOverwrite.from_pair(allow, deny)`: flags of `allow` are set
to `True` first, then flags of `deny` are set to `False`, overriding any
simultaneous allow bit; undefined bits are dropped. -/
def fromPair (a d : Nat) : Overwrite :=
  ⟨landNot (a &&& validMask) (d &&& validMask), d &&& validMask⟩

/-- `discord.PermissionOverwrite()`: every flag inherited. -/
def emptyOverwrite : Overwrite := ⟨0, 0⟩

/-- `tweak_permissions(permissions, add_mask, remove_mask)`:
`Permissions(permissions.value & ~remove_mask | add_mask)`. -/
def tweak_permissions (p addMask removeMask : Nat) : Nat :=
  landNot p removeMask ||| addMask

/-- `tweak_overwrite(overwrite, add_mask, remove_mask, reset_mask)`. -/
def tweak_overwrite (o : Overwrite) (addMask removeMask resetMask : Nat) :
    Overwrite :=
  fromPair (tweak_permissions o.allow addMask resetMask)
    (tweak_permissions o.deny removeMask resetMask)

/-! ## String primitives

Python string operations used by the plugin, modelled on the character
list underlying a Lean `String`. -/

/-- Python `s.startswith(p)`. -/
def strStartsWith (s p : String) : Bool := p.data.isPrefixOf s.data

/-- Python `s.removeprefix(p)` under the guard that `s` starts with `p`
(the plugin always checks `startswith` first): drop `n` characters. -/
def strDrop (s : String) (n : Nat) : String := ⟨s.data.drop n⟩

/-- Decimal digit character for `d < 10` (Python `str` of a digit). -/
def digitChar (d : Nat) : Char := Char.ofNat (48 + d)

/-- Decimal digits of `n`, most significant first; `fuel` bounds the
recursion (any `fuel > n` is enough). -/
def natChars : Nat → Nat → List Char
  | 0, _ => []
  | fuel + 1, n =>
    if n < 10 then [digitChar n]
    else natChars fuel (n / 10) ++ [digitChar (n % 10)]

/-- Python `str(n)` for a non-negative int. -/
def natToStr (n : Nat) : String := ⟨natChars (n + 1) n⟩

/-- Python whitespace test (the characters `str.split` splits on). -/
def isPyWhitespace (c : Char) : Bool :=
  c = ' ' ∨ c = '\t' ∨ c = '\n' ∨ c = '\x0b' ∨ c = '\x0c' ∨ c = '\r'

/-- Python `s.split()[0]` (first whitespace-delimited token), `none` when
`s` has no token (where Python raises `IndexError`). -/
def firstToken (s : String) : Option String :=
  let tok := (s.data.dropWhile isPyWhitespace).takeWhile (fun c => !isPyWhitespace c)
  if tok = [] then none else some ⟨tok⟩

/-- Value of a list of decimal digit characters. -/
def digitsVal (l : List Char) : Nat :=
  l.foldl (fun acc c => 10 * acc + (c.toNat - 48)) 0

/-- Python `int(tok)` on a whitespace-free token: optional sign followed by
decimal digits.  (Python additionally allows single underscores between
digits; tokens of that form do not arise in this development.) -/
def strToInt? (s : String) : Option Int :=
  let digits? : List Char → Option Nat := fun l =>
    if l ≠ [] ∧ l.all Char.isDigit then some (digitsVal l) else none
  match s.data with
  | [] => none
  | c :: rest =>
    if c = '-' then (digits? rest).map (fun n => -(n : Int))
    else if c = '+' then (digits? rest).map (fun n => (n : Int))
    else (digits? (c :: rest)).map (fun n => (n : Int))

/-! ## Guild data model

Snapshot of the live guild state the plugin reads through discord.py. -/

/-- A guild role: id, name and its permission bit set. -/
structure Role where
  id : Nat
  name : String
  permissions : Nat
deriving DecidableEq, Repr

/-- A guild member (only the fields the plugin reads). -/
structure Member where
  id : Nat
  name : String
deriving DecidableEq, Repr

/-- An overwrite target: a `discord.Role` or a `discord.Member`. -/
inductive Target where
  | role (r : Role)
  | member (m : Member)
deriving DecidableEq, Repr

/-- Discord object id of a target (`target.id`). -/
def Target.tid : Target → Nat
  | .role r => r.id
  | .member m => m.id

/-- Dict/set key of a target: discord objects compare by class and id. -/
def Target.key : Target → Bool × Nat
  | .role r => (true, r.id)
  | .member m => (false, m.id)

/-- The concrete `discord.abc.GuildChannel` classes of discord.py 1.7. -/
inductive ChannelKind where
  | category
  | text
  | store
  | voice
  | stage
deriving DecidableEq, Repr

/-- A guild channel.  `position` is the library's ordinal position;
`categoryId` is `channel.category_id`; `synced` is the library-computed
`channel.permissions_synced`; `overwrites` is `channel.overwrites` in its
iteration (insertion) order. -/
structure Channel where
  id : Nat
  name : String
  kind : ChannelKind
  position : Int
  categoryId : Option Nat
  synced : Bool
  overwrites : List (Target × Overwrite)
deriving DecidableEq, Repr

/-- The guild state read at the start of an invocation.  List orders are
the library's: `guild.roles` by ascending rank, `guild.channels` in
library order. -/
structure Guild where
  roles : List Role
  channels : List Channel
  members : List Member
deriving DecidableEq, Repr

/-- `channel.category`: the guild channel whose id is `category_id`. -/
def category (g : Guild) (c : Channel) : Option Channel :=
  c.categoryId.bind (fun i => g.channels.find? (fun c2 => c2.id == i))

/-- `guild.get_member(user_id)`. -/
def getMember (g : Guild) (i : Int) : Option Member :=
  g.members.find? (fun m => (m.id : Int) == i)

/-! ## Sort keys, disambiguation and the exporter -/

/-- `channel_sort_key`: Python's tuple
`(category position or -1 | own position for categories,
  is voice/stage channel, position or -1)`, with `False < True`
modelled as `0 < 1`. -/
def channel_sort_key (g : Guild) (c : Channel) : Int × Int × Int :=
  if c.kind = .category then (c.position, 0, -1)
  else ((match category g c with | some cat => cat.position | none => -1),
    (if c.kind = .voice ∨ c.kind = .stage then 1 else 0),
    c.position)

/-- Lexicographic `≤` on the sort-key triples (Python tuple comparison). -/
def keyLe (x y : Int × Int × Int) : Prop :=
  x.1 < y.1 ∨ (x.1 = y.1 ∧ (x.2.1 < y.2.1 ∨ (x.2.1 = y.2.1 ∧ x.2.2 ≤ y.2.2)))

instance : DecidableRel keyLe := fun x y => by
  unfold keyLe; infer_instance

/-- The relation `sorted(..., key=channel_sort_key)` sorts by. -/
def chanRel (g : Guild) (a b : Channel) : Prop :=
  keyLe (channel_sort_key g a) (channel_sort_key g b)

instance (g : Guild) : DecidableRel (chanRel g) := fun a b => by
  unfold chanRel; infer_instance

/-- Python `sorted` is a stable sort; modelled by insertion sort. -/
def sortChannels (g : Guild) (l : List Channel) : List Channel :=
  l.insertionSort (chanRel g)

/-- `overwrite_sort_key`: index of a role in `guild.roles` (comparison by
id, as `list.index` uses discord equality), `-1` for a role not in the
list and for any member target. -/
def overwrite_sort_key (g : Guild) (p : Target × Overwrite) : Int :=
  match p.1 with
  | .role r =>
    match g.roles.findIdx? (fun r2 => r2.id == r.id) with
    | some i => (i : Int)
    | none => -1
  | .member _ => -1

/-- The relation `sorted(channel.overwrites.items(), key=overwrite_sort_key)`
sorts by. -/
def owRel (g : Guild) (a b : Target × Overwrite) : Prop :=
  overwrite_sort_key g a ≤ overwrite_sort_key g b

instance (g : Guild) : DecidableRel (owRel g) := fun a b => by
  unfold owRel; infer_instance

/-- Sorted overwrite entries of a channel (stable). -/
def sortOverwrites (g : Guild) (l : List (Target × Overwrite)) :
    List (Target × Overwrite) :=
  l.insertionSort (owRel g)

/-- `disambiguated_name(channel)`.  The `none` fallback of the index
lookup is unreachable when `c` is one of the guild's channels (Python's
`list.index` would raise `ValueError` there). -/
def disambiguated_name (g : Guild) (c : Channel) : String :=
  let chans := g.channels.filter (fun c2 => c2.name == c.name)
  if chans.length < 2 then c.name
  else
    let sorted := chans.insertionSort (fun a b => a.id ≤ b.id)
    match sorted.findIdx? (fun c2 => c2.id == c.id) with
    | some i => c.name ++ " (" ++ natToStr (1 + i) ++ ")"
    | none => c.name ++ " (" ++ natToStr (1 + sorted.length) ++ ")"

/-- The per-flag symbols of a role row:
`["+" if value else "-" for _, value in role.permissions]`. -/
def roleSymbols (perms : Nat) : List String :=
  permFlags.map (fun f => if perms &&& f.2 ≠ 0 then "+" else "-")

/-- The per-flag symbols of an overwrite row:
`"+" if allow else "-" if deny else "/"` over `zip(*overwrite.pair())`. -/
def overwriteSymbols (o : Overwrite) : List String :=
  permFlags.map (fun f =>
    if o.allow &&& f.2 ≠ 0 then "+" else if o.deny &&& f.2 ≠ 0 then "-" else "/")

/-- The `Role/User` cell written for an overwrite target:
`"Role {name}"` or `"User {id} {name}"`. -/
def targetName : Target → String
  | .role r => "Role " ++ r.name
  | .member m => "User " ++ natToStr m.id ++ " " ++ m.name

/-- The `Category` cell of a non-category channel's rows: the
disambiguated name of its category, or empty. -/
def catName (g : Guild) (c : Channel) : String :=
  match category g c with
  | some cat => disambiguated_name g cat
  | none => ""

/-- The two leading cells of a channel's rows. -/
def channelHeader (g : Guild) (c : Channel) : List String :=
  if c.kind = .category then [disambiguated_name g c, ""]
  else [catName g c, disambiguated_name g c]

/-- The CSV rows exported for one channel: the header row (with the
`(synced)` marker), then — unless synced — one row per overwrite entry in
sorted order. -/
def channelRows (g : Guild) (c : Channel) : List (List String) :=
  let hdr := channelHeader g c
  let first := hdr ++ [if c.synced then "(synced)" else ""]
  if c.synced then [first]
  else first :: (sortOverwrites g c.overwrites).map
    (fun p => hdr ++ [targetName p.1] ++ overwriteSymbols p.2)

/-- `exportperms`: the rows of the exported CSV. -/
def exportperms (g : Guild) : List (List String) :=
  (["Category", "Channel", "Role/User"] ++ permFlags.map Prod.fst)
    :: (g.roles.map (fun r =>
          ["", "", "Role " ++ r.name] ++ roleSymbols r.permissions)
        ++ (sortChannels g g.channels).flatMap (channelRows g))

/-! ## The importer -/

/-- Result of `getattr(discord.Permissions, name)` as the importer uses it:
either a permission flag (with its bit), or some other attribute of the
class (which resolves fine but has no `.flag`). -/
inductive PermAttr where
  | flagAttr (bit : Nat)
  | otherAttr
deriving DecidableEq, Repr

/-- `getattr(discord.Permissions, name)`, `none` for `AttributeError`. -/
def getattrPermissions (name : String) : Option PermAttr :=
  match permFlags.find? (fun f => f.1 == name) with
  | some f => some (.flagAttr f.2)
  | none =>
    if permsOtherAttrs.contains name then some .otherAttr else none

/-- The header-flag resolution loop: `flags.append((getattr(...), perm))`,
raising `Unknown permission` at the first unresolvable column. -/
def parseFlags : List String → Except String (List (PermAttr × String))
  | [] => .ok []
  | name :: rest =>
    match getattrPermissions name with
    | some a => (parseFlags rest).map (fun l => (a, name) :: l)
    | none => .error ("Unknown permission: '" ++ name ++ "'")

/-- A scheduled deferred mutation, capturing the identifiers and masks the
closure in the source captures. -/
inductive Action where
  | editRole (roleId addMask removeMask : Nat)
  | moveChannel (channelId : Nat) (categoryId : Option Nat)
  | editOverwrites (channelId : Nat)
      (entries : List (Target × (Nat × Nat × Nat)))
  | syncChannel (channelId : Nat)
deriving DecidableEq, Repr

/-- `util.discord.format` conversion `{!M}` on a role id. -/
def roleMention (i : Nat) : String := "<@&" ++ natToStr i ++ ">"

/-- `util.discord.format` conversion `{!m}` on a member id. -/
def memberMention (i : Nat) : String := "<@" ++ natToStr i ++ ">"

/-- `util.discord.format` conversion `{!c}` on a channel id. -/
def channelMention (i : Nat) : String := "<#" ++ natToStr i ++ ">"

/-- The mention the importer's notes use for a target
(`{!M}` for roles, `{!m}` for members). -/
def Target.mention : Target → String
  | .role r => roleMention r.id
  | .member m => memberMention m.id

/-- Python `str` of a possibly negative int. -/
def intToStr (i : Int) : String :=
  if i < 0 then "-" ++ natToStr i.natAbs else natToStr i.natAbs

/-- State accumulated by the importer's row loop. -/
structure ImpState where
  actions : List Action
  output : List String
  newOverwrites : List (Channel × List (Target × (Nat × Nat × Nat)))
  wantSync : List Channel
  seenMoved : List (Channel × Option Channel)
  lastChannel : Option Channel
deriving DecidableEq, Repr

/-- The state at the start of the row loop. -/
def initState : ImpState := ⟨[], [], [], [], [], none⟩

/-- Membership in `new_overwrites` (dict keyed by channel, id equality). -/
def noMem (l : List (Channel × List (Target × (Nat × Nat × Nat))))
    (c : Channel) : Bool :=
  l.any (fun e => e.1.id == c.id)

/-- `new_overwrites[channel]` (defaultdict read for membership tests). -/
def noLookup (l : List (Channel × List (Target × (Nat × Nat × Nat))))
    (c : Channel) : Option (List (Target × (Nat × Nat × Nat))) :=
  (l.find? (fun e => e.1.id == c.id)).map Prod.snd

/-- Bare `new_overwrites[channel]` on a defaultdict: inserts an empty
target dict when the channel key is missing. -/
def noTouch (l : List (Channel × List (Target × (Nat × Nat × Nat))))
    (c : Channel) : List (Channel × List (Target × (Nat × Nat × Nat))) :=
  if noMem l c then l else l ++ [(c, [])]

/-- Target-dict update `d[target] = masks`: replaces the value of an
existing key in place, otherwise appends. -/
def entriesSet (ts : List (Target × (Nat × Nat × Nat))) (t : Target)
    (m : Nat × Nat × Nat) : List (Target × (Nat × Nat × Nat)) :=
  if ts.any (fun e => e.1.key == t.key) then
    ts.map (fun e => if e.1.key == t.key then (e.1, m) else e)
  else ts ++ [(t, m)]

/-- `new_overwrites[channel][target] = masks`. -/
def noSet (l : List (Channel × List (Target × (Nat × Nat × Nat))))
    (c : Channel) (t : Target) (m : Nat × Nat × Nat) :
    List (Channel × List (Target × (Nat × Nat × Nat))) :=
  if noMem l c then
    l.map (fun e => if e.1.id == c.id then (e.1, entriesSet e.2 t m) else e)
  else l ++ [(c, [(t, m)])]

/-- `want_sync.add(channel)` (set add, id equality). -/
def wsAdd (l : List Channel) (c : Channel) : List Channel :=
  if l.any (fun c2 => c2.id == c.id) then l else l ++ [c]

/-- `channel in want_sync`. -/
def wsMem (l : List Channel) (c : Channel) : Bool :=
  l.any (fun c2 => c2.id == c.id)

/-- `channel in seen_moved`. -/
def smMem (sm : List (Channel × Option Channel)) (c : Channel) : Bool :=
  sm.any (fun e => e.1.id == c.id)

/-- `seen_moved.get(channel, default)` without the default:
`some v` when the key is present (`v` itself is the stored
`Optional[CategoryChannel]`). -/
def smLookup (sm : List (Channel × Option Channel)) (c : Channel) :
    Option (Option Channel) :=
  (sm.find? (fun e => e.1.id == c.id)).map Prod.snd

/-- `overwrites_changed.add(channel)`. -/
def ocAdd (l : List Channel) (c : Channel) : List Channel :=
  if l.any (fun c2 => c2.id == c.id) then l else l ++ [c]

/-- `new_category in overwrites_changed`. -/
def ocMem (l : List Channel) (c : Channel) : Bool :=
  l.any (fun c2 => c2.id == c.id)

/-- The role-name dict `{role.name: role}`: later entries win. -/
def rolesLookup (g : Guild) (name : String) : Option Role :=
  g.roles.reverse.find? (fun r => r.name == name)

/-- The channel dict `{disambiguated_name(channel): channel}`:
later entries win. -/
def channelsLookup (g : Guild) (s : String) : Option Channel :=
  g.channels.reverse.find? (fun c => disambiguated_name g c == s)

/-- `overwrites_for(channel, target)`: the first overwrite entry whose
target has the same id, else an empty overwrite. -/
def overwrites_for (c : Channel) (t : Target) : Overwrite :=
  match c.overwrites.find? (fun e => e.1.tid == t.tid) with
  | some e => e.2
  | none => emptyOverwrite

/-- `"Line {}: {}"` error prefix. -/
def lineErr (ln : Nat) (msg : String) : String :=
  "Line " ++ natToStr ln ++ ": " ++ msg

/-- Parsing of an overwrite row's `Role <name>` / `User <id> <name>`
target cell (`importperms`, lines 180–196). -/
def parseTarget (g : Guild) (ln : Nat) (s : String) : Except String Target :=
  if strStartsWith s "Role " then
    let roleName := strDrop s 5
    match rolesLookup g roleName with
    | none => .error (lineErr ln ("unknown role '" ++ roleName ++ "'."))
    | some r => .ok (.role r)
  else if strStartsWith s "User " then
    match firstToken (strDrop s 5) with
    | none => .error (lineErr ln "IndexError")
    | some tok =>
      match strToInt? tok with
      | none => .error (lineErr ln "expected user ID")
      | some i =>
        match getMember g i with
        | none =>
          .error (lineErr ln ("no such member " ++ intToStr i ++ "."))
        | some m => .ok (.member m)
  else .error (lineErr ln "expected a role or user.")

/-- One step of the role-row mask loop
(`for (flag, perm), sign in zip(flags, row[3:])`, lines 130–136).
Reading `.flag` of a non-flag attribute raises `AttributeError`, which is
only reached when the sign tests it. -/
def roleMaskStep (perms : Nat) (st : Nat × Nat × List String)
    (fs : (PermAttr × String) × String) : Except String (Nat × Nat × List String) :=
  let sign := fs.2
  let permName := fs.1.2
  if sign == "+" then
    match fs.1.1 with
    | .otherAttr => .error ("AttributeError: flag (column '" ++ permName ++ "')")
    | .flagAttr bit =>
      if perms &&& bit == 0 then
        .ok (st.1 ||| bit, st.2.1, st.2.2 ++ ["✅" ++ permName])
      else .ok st
  else if sign == "-" then
    match fs.1.1 with
    | .otherAttr => .error ("AttributeError: flag (column '" ++ permName ++ "')")
    | .flagAttr bit =>
      if perms &&& bit != 0 then
        .ok (st.1, st.2.1 ||| bit, st.2.2 ++ ["❌" ++ permName])
      else .ok st
  else .ok st

/-- The role-row mask loop: add mask, remove mask, change notes. -/
def computeRoleMasks (flags : List (PermAttr × String)) (signs : List String)
    (perms : Nat) : Except String (Nat × Nat × List String) :=
  (flags.zip signs).foldlM (roleMaskStep perms) (0, 0, [])

/-- One step of the overwrite-row mask loop (lines 202–211). -/
def owMaskStep (a d : Nat) (st : Nat × Nat × Nat × List String)
    (fs : (PermAttr × String) × String) :
    Except String (Nat × Nat × Nat × List String) :=
  let sign := fs.2
  let permName := fs.1.2
  if sign == "+" then
    match fs.1.1 with
    | .otherAttr => .error ("AttributeError: flag (column '" ++ permName ++ "')")
    | .flagAttr bit =>
      if a &&& bit == 0 then
        .ok (st.1 ||| bit, st.2.1, st.2.2.1, st.2.2.2 ++ ["✅" ++ permName])
      else .ok st
  else if sign == "-" then
    match fs.1.1 with
    | .otherAttr => .error ("AttributeError: flag (column '" ++ permName ++ "')")
    | .flagAttr bit =>
      if d &&& bit == 0 then
        .ok (st.1, st.2.1 ||| bit, st.2.2.1, st.2.2.2 ++ ["❌" ++ permName])
      else .ok st
  else if sign == "/" then
    match fs.1.1 with
    | .otherAttr => .error ("AttributeError: flag (column '" ++ permName ++ "')")
    | .flagAttr bit =>
      if a &&& bit != 0 || d &&& bit != 0 then
        .ok (st.1, st.2.1, st.2.2.1 ||| bit, st.2.2.2 ++ ["🔳" ++ permName])
      else .ok st
  else .ok st

/-- The overwrite-row mask loop: add, remove and reset masks plus change
notes, diffed against the live pair `(a, d)` of the target's overwrite. -/
def computeOverwriteMasks (flags : List (PermAttr × String))
    (signs : List String) (a d : Nat) :
    Except String (Nat × Nat × Nat × List String) :=
  (flags.zip signs).foldlM (owMaskStep a d) (0, 0, 0, [])

/-- Comparison `channel.category != category` (discord objects compare by
id; `None` only equals `None`). -/
def optChanEq : Option Channel → Option Channel → Bool
  | none, none => true
  | some a, some b => a.id == b.id
  | _, _ => false

/-- The `"Move {!c} to {!c}"` note.  Formatting `None` with the `{!c}`
conversion raises `ValueError` inside the formatter. -/
def moveNote (c : Channel) : Option Channel → Except String String
  | some cat => .ok ("Move " ++ channelMention c.id ++ " to " ++ channelMention cat.id)
  | none => .error "Unknown conversion specifier c"

/-- The body of the importer's row loop for one data row. -/
def processRow (g : Guild) (flags : List (PermAttr × String)) (st : ImpState)
    (ln : Nat) (row : List String) : Except String ImpState :=
  if row.length < 3 then .error (lineErr ln "invalid row.")
  else
    let c0 := row.getD 0 ""
    let c1 := row.getD 1 ""
    let c2 := row.getD 2 ""
    if c0 == "" && c1 == "" then
      -- role permission row
      if !strStartsWith c2 "Role " then .error (lineErr ln "expected a role.")
      else
        let roleName := strDrop c2 5
        match rolesLookup g roleName with
        | none => .error (lineErr ln ("unknown role '" ++ roleName ++ "'."))
        | some role =>
          (computeRoleMasks flags (row.drop 3) role.permissions).bind
            (fun r =>
              let st1 := if r.2.2 ≠ [] then
                  { st with output := st.output ++
                    [roleMention role.id ++ ": " ++ String.intercalate ", " r.2.2] }
                else st
              let st2 := if r.1 ≠ 0 ∨ r.2.1 ≠ 0 then
                  { st1 with actions := st1.actions ++ [.editRole role.id r.1 r.2.1] }
                else st1
              .ok st2)
    else
      -- channel/category row: resolve the category and channel cells
      (if c1 == "" then
        match channelsLookup g c0 with
        | none => .error (lineErr ln ("unknown channel '" ++ c0 ++ "'."))
        | some ch =>
          if ch.kind ≠ .category then
            .error (lineErr ln ("'" ++ c0 ++ "' is not a category."))
          else .ok (ch, (none : Option Channel))
      else
        ((if c0 == "" then .ok (none : Option Channel)
         else
          match channelsLookup g c0 with
          | none => .error (lineErr ln ("unknown channel '" ++ c0 ++ "'."))
          | some cat =>
            if cat.kind ≠ .category then
              .error (lineErr ln ("'" ++ c0 ++ "' is not a category."))
            else .ok (some cat) : Except String (Option Channel))).bind (fun cat? =>
          match channelsLookup g c1 with
          | none => .error (lineErr ln ("unknown channel '" ++ c1 ++ "'."))
          | some ch =>
            if ch.kind = .category then
              .error (lineErr ln ("'" ++ c1 ++ "' is a category."))
            else .ok (ch, cat?)) : Except String (Channel × Option Channel)).bind (fun r =>
      let channel := r.1
      let cat? := r.2
      let st := { st with lastChannel := some channel }
      -- move handling
      ((if channel.kind ≠ .category && !optChanEq (category g channel) cat? then
        if !smMem st.seenMoved channel then
          (moveNote channel cat?).bind (fun note =>
            .ok { st with
              seenMoved := st.seenMoved ++ [(channel, cat?)],
              output := st.output ++ [note],
              actions := st.actions ++ [.moveChannel channel.id (cat?.map (fun c => c.id))] })
        else .ok st
      else .ok st) : Except String ImpState).bind (fun st =>
      if c2 == "(synced)" && channel.kind ≠ .category then
        .ok { st with wantSync := wsAdd st.wantSync channel }
      else if c2 != "" then
        (parseTarget g ln c2).bind (fun t =>
          let pr := (overwrites_for channel t).pair
          (computeOverwriteMasks flags (row.drop 3) pr.1 pr.2).bind (fun m =>
            let st1 := if m.2.2.2 ≠ [] then
                { st with output := st.output ++
                  [channelMention channel.id ++ " " ++ Target.mention t ++ ": " ++
                    String.intercalate ", " m.2.2.2] }
              else st
            .ok { st1 with
              newOverwrites := noSet st1.newOverwrites channel t (m.1, m.2.1, m.2.2.1) }))
      else
        .ok { st with newOverwrites := noTouch st.newOverwrites channel }))

/-- The importer's row loop, numbering rows as `csv.reader` numbers lines
(the header is line 1). -/
def processRows (g : Guild) (flags : List (PermAttr × String)) :
    List (List String) → Nat → ImpState → Except String ImpState
  | [], _, st => .ok st
  | row :: rest, ln, st =>
    (processRow g flags st ln row).bind (processRows g flags rest (ln + 1))

/-- The second pass over `new_overwrites` (lines 219–238).  The `continue`
guard tests the *leftover* `channel` variable from the row loop (and from
earlier iterations of this loop), not the loop variable `chan`; the
`isinstance` test passes for every modelled channel kind.  The
accumulator is `(actions, output, overwrites_changed, channel)`. -/
def overwritePass (wantSync : List Channel) :
    List (Channel × List (Target × (Nat × Nat × Nat))) →
    List Action × List String × List Channel × Option Channel →
    List Action × List String × List Channel × Option Channel
  | [], acc => acc
  | (chan, entries) :: rest, (actions, output, oc, stale) =>
    if (match stale with | some c => wsMem wantSync c | none => false) then
      overwritePass wantSync rest (actions, output, oc, stale)
    else
      let channel := chan
      let oc1 := if entries.any (fun e => e.2.1 ≠ 0 ∨ e.2.2.1 ≠ 0 ∨ e.2.2.2 ≠ 0)
        then ocAdd oc channel else oc
      let removals := channel.overwrites.filter
        (fun e => !entries.any (fun e2 => e2.1.key == e.1.key))
      let output1 := output ++ removals.map
        (fun e => channelMention channel.id ++ " remove " ++ Target.mention e.1)
      let oc2 := if removals ≠ [] then ocAdd oc1 channel else oc1
      overwritePass wantSync rest
        (actions ++ [.editOverwrites channel.id entries], output1, oc2, some channel)

/-- `seen_moved.get(channel, channel.category)`: the category the channel
will end up under — the moved-to category if this import moved it, else
its current category. -/
def effectiveCategory (g : Guild) (sm : List (Channel × Option Channel))
    (c : Channel) : Option Channel :=
  match smLookup sm c with
  | some v => v
  | none => category g c

/-- The second pass over `want_sync` (lines 239–250).  The `isinstance`
test excludes categories and passes for every other modelled kind. -/
def syncPass (g : Guild) (oc : List Channel)
    (sm : List (Channel × Option Channel)) :
    List Channel → List Action × List String →
    Except String (List Action × List String)
  | [], acc => .ok acc
  | chan :: rest, (actions, output) =>
    if chan.kind = .category then syncPass g oc sm rest (actions, output)
    else
      let channel := chan
      let newCategory := effectiveCategory g sm channel
      match newCategory with
      | none =>
        .error ("Cannot sync channel " ++ channelMention channel.id ++
          " with no category")
      | some ncat =>
        if ¬channel.synced ∨ smMem sm channel ∨ ocMem oc ncat then
          syncPass g oc sm rest
            (actions ++ [.syncChannel channel.id],
             output ++ ["Sync " ++ channelMention channel.id ++ " with " ++
               channelMention ncat.id])
        else syncPass g oc sm rest (actions, output)

/-- `importperms`: parse the CSV rows against the guild state, returning
the change notes and the scheduled actions (which the command then shows
for confirmation; with no notes it reports "No changes." and the actions
are never run). -/
def importperms (g : Guild) (rows : List (List String)) :
    Except String (List String × List Action) :=
  match rows with
  | [] => .error "StopIteration"
  | header :: data =>
    if header.length < 3 ∨ header.getD 0 "" ≠ "Category" ∨
        header.getD 1 "" ≠ "Channel" ∨ header.getD 2 "" ≠ "Role/User" then
      .error "Invalid header."
    else
      (parseFlags (header.drop 3)).bind (fun flags =>
      (processRows g flags data 2 initState).bind (fun st =>
        let r := overwritePass st.wantSync st.newOverwrites
          (st.actions, st.output, [], st.lastChannel)
        (syncPass g r.2.2.1 st.seenMoved st.wantSync (r.1, r.2.1)).bind
          (fun fin => .ok (fin.2, fin.1))))

/-- One iteration of the note-rendering loop (lines 256–263): the
accumulator is `(messages sent so far, current text buffer)`. -/
def renderStep (acc : List String × String) (out : String) :
    List String × String :=
  if acc.2.length + 1 + out.length > 2000 then (acc.1 ++ [acc.2], out)
  else (acc.1, acc.2 ++ "\n" ++ out)

/-- The note-rendering loop (lines 256–263): greedily packs notes into
messages, starting a new message when the next note (plus a joining
newline) would push the buffer past 2000 characters; the final buffer is
always sent as the last message. -/
def renderMessages (notes : List String) : List String :=
  let r := notes.foldl renderStep ([], "")
  r.1 ++ [r.2]

/-! ## Theorems -/

/-- **C2.** The claim's mask formulas say
`newAllow = (oldAllow & ~resetMask & ~removeMask) | addMask` and
`newDeny = (oldDeny & ~resetMask & ~addMask) | removeMask`, so on an
overwrite with `allow = {}`, `deny = {create_instant_invite}` an
`addMask = {create_instant_invite}` should flip the flag to allowed:
`(allow, deny) = (1, 0)`.  The code instead feeds the raw masks through
`PermissionOverwrite.from_pair`, where the deny loop runs second and
wins, so the flag stays denied: `tweak_overwrite` returns the overwrite
unchanged, `(allow, deny) = (0, 1)`.  (This is the failing input of the
`code_bug` verdict: the importer emits a `✅` change note for exactly this
situation — a `+` on a currently denied flag — and then schedules an edit
that does not change anything.) -/
theorem C2_add_on_denied_flag_stays_denied :
    tweak_overwrite (fromPair 0 1) 1 0 0 = fromPair 0 1 ∧
    (fromPair 0 1).pair = (0, 1) ∧
    (landNot (landNot 0 0) 0 ||| 1, landNot (landNot 1 0) 1 ||| 0) = (1, 0) ∧
    (tweak_overwrite (fromPair 0 1) 1 0 0).pair ≠ (1, 0) := by
  decide

/-- Roles of the C4 example guild: `exRoleMod` is in the guild role list,
`exRoleGhost` is an overwrite target whose role is absent from it. -/
def exRoleMod : Role := ⟨10, "mod", 0⟩

/-- A role used as an overwrite target but absent from `guild.roles`. -/
def exRoleGhost : Role := ⟨11, "ghost", 0⟩

/-- A member overwrite target for the C4 example. -/
def exMemberBob : Member := ⟨5, "bob"⟩

/-- The C4 example guild: one listed role, one member. -/
def exGuildC4 : Guild := ⟨[exRoleMod], [], [exMemberBob]⟩

/-- Overwrite entries of a channel in the C4 example, in live order:
listed role, unlisted role, member. -/
def exOverwritesC4 : List (Target × Overwrite) :=
  [(.role exRoleMod, emptyOverwrite),
   (.role exRoleGhost, emptyOverwrite),
   (.member exMemberBob, emptyOverwrite)]

/-- **C4, counterexample.** The claim says a member target sorts *after*
all role targets and a role missing from the guild list sorts *last*.  On
the example channel the export's sort puts the unlisted role first, the
member second and the listed role last, because `overwrite_sort_key`
returns `-1` (which sorts *first* in ascending order) both for members
and for unlisted roles. -/
theorem C4_member_sorts_before_roles :
    sortOverwrites exGuildC4 exOverwritesC4 =
      [(.role exRoleGhost, emptyOverwrite),
       (.member exMemberBob, emptyOverwrite),
       (.role exRoleMod, emptyOverwrite)] ∧
    overwrite_sort_key exGuildC4 (.member exMemberBob, emptyOverwrite) = -1 ∧
    overwrite_sort_key exGuildC4 (.role exRoleGhost, emptyOverwrite) = -1 ∧
    overwrite_sort_key exGuildC4 (.role exRoleMod, emptyOverwrite) = 0 := by
  decide

/-- **C4, amended.** Within one channel the export sorts overwrite rows by
`overwrite_sort_key`, which is the role's index in the guild's role list
and `-1` for members and for roles not found in the list; consequently
members and unlisted roles sort *before* (not after) every role found in
the list: the output is sorted w.r.t. the key, members always carry key
`-1`, and any entry with negative key precedes every entry with
non-negative key. -/
theorem C4_sorted_by_key (g : Guild) (l : List (Target × Overwrite)) :
    List.Sorted (owRel g) (sortOverwrites g l) ∧
    (∀ p : Target × Overwrite,
      (∃ m, p.1 = Target.member m) → overwrite_sort_key g p = -1) ∧
    ∀ i j : Fin (sortOverwrites g l).length,
      overwrite_sort_key g ((sortOverwrites g l).get i) < 0 →
      0 ≤ overwrite_sort_key g ((sortOverwrites g l).get j) →
      i < j := by
  haveI : IsTotal (Target × Overwrite) (owRel g) :=
    ⟨fun a b => Int.le_total _ _⟩
  haveI : IsTrans (Target × Overwrite) (owRel g) :=
    ⟨fun _ _ _ h1 h2 => le_trans h1 h2⟩
  have hs : List.Sorted (owRel g) (sortOverwrites g l) :=
    List.sorted_insertionSort _ l
  refine ⟨hs, ?_, ?_⟩
  · rintro p ⟨m, hm⟩
    simp [overwrite_sort_key, hm]
  · intro i j hi hj
    by_contra hlt
    push_neg at hlt
    rcases lt_or_eq_of_le hlt with h | h
    · have := hs.rel_get_of_lt h
      unfold owRel at this
      omega
    · rw [h] at hj
      omega

/-- **C4, witness.** On the example channel, the member entry (position 1
of the sorted list) indeed precedes the listed-role entry (position 2). -/
theorem C4_sorted_by_key_witness :
    (⟨1, by decide⟩ : Fin (sortOverwrites exGuildC4 exOverwritesC4).length) <
      ⟨2, by decide⟩ :=
  (C4_sorted_by_key exGuildC4 exOverwritesC4).2.2 ⟨1, by decide⟩ ⟨2, by decide⟩
    (by decide) (by decide)

/-- A single note of 2001 characters. -/
def overlongNote : String := ⟨List.replicate 2001 'a'⟩

/-- **C8, counterexample.** The claim bounds every emitted message by 2000
characters for *every* non-empty note list.  A single note of 2001
characters is moved into the buffer unsplit (after flushing the empty
initial buffer) and is then emitted as a message of 2001 characters. -/
theorem C8_overlong_note_overflows :
    renderMessages [overlongNote] = ["", overlongNote] ∧
    2000 < ((renderMessages [overlongNote]).getD 1 "").length := by
  have h : overlongNote.length = 2001 := by
    show (List.replicate 2001 'a').length = 2001
    rw [List.length_replicate]
  have hstep : renderStep ([], "") overlongNote = ([""], overlongNote) := by
    unfold renderStep
    rw [if_pos]
    · rfl
    · show (([], "") : List String × String).2.length + 1 + overlongNote.length > 2000
      rw [h]
      decide
  have hall : renderMessages [overlongNote] = ["", overlongNote] := by
    unfold renderMessages
    rw [List.foldl_cons, hstep, List.foldl_nil]
    rfl
  refine ⟨hall, ?_⟩
  rw [hall]
  simpa using h.ge

/-- Length invariant of the rendering fold: if every note and the running
buffer are at most 2000 characters, every flushed message and the final
buffer stay at most 2000 characters. -/
theorem renderFold_length (notes : List String) :
    ∀ acc : List String × String,
    (∀ n ∈ notes, n.length ≤ 2000) →
    (∀ m ∈ acc.1, m.length ≤ 2000) → acc.2.length ≤ 2000 →
    (∀ m ∈ (notes.foldl renderStep acc).1, m.length ≤ 2000) ∧
      (notes.foldl renderStep acc).2.length ≤ 2000 := by
  induction notes with
  | nil => exact fun acc _ h1 h2 => ⟨h1, h2⟩
  | cons out rest ih =>
    intro acc hn h1 h2
    have hout : out.length ≤ 2000 := hn out (by simp)
    have hrest : ∀ n ∈ rest, n.length ≤ 2000 := fun n hn2 => hn n (by simp [hn2])
    rw [List.foldl_cons]
    unfold renderStep
    by_cases hcond : acc.2.length + 1 + out.length > 2000
    · rw [if_pos hcond]
      refine ih _ hrest ?_ hout
      intro m hm
      rcases List.mem_append.1 hm with h | h
      · exact h1 m h
      · simp at h; simpa [h] using h2
    · rw [if_neg hcond]
      refine ih _ hrest h1 ?_
      show (acc.2 ++ "\n" ++ out).length ≤ 2000
      have : (acc.2 ++ "\n" ++ out).length = acc.2.length + 1 + out.length := by
        rw [String.length_append, String.length_append,
          show ("\n" : String).length = 1 from rfl]
      omega

/-- Containment invariant of the rendering fold: a note that is already an
infix of a flushed message or of the buffer stays one, and every note of
the remaining list ends up an infix of a flushed message or of the final
buffer. -/
theorem renderFold_contains (notes : List String) :
    ∀ (acc : List String × String) (n : String),
    ((∃ m ∈ acc.1, n.data <:+: m.data) ∨ n.data <:+: acc.2.data ∨ n ∈ notes) →
    (∃ m ∈ (notes.foldl renderStep acc).1, n.data <:+: m.data) ∨
      n.data <:+: (notes.foldl renderStep acc).2.data := by
  induction notes with
  | nil =>
    intro acc n h
    rcases h with h | h | h
    · exact Or.inl h
    · exact Or.inr h
    · cases h
  | cons out rest ih =>
    intro acc n h
    rw [List.foldl_cons]
    apply ih
    unfold renderStep
    by_cases hcond : acc.2.length + 1 + out.length > 2000
    · rw [if_pos hcond]
      rcases h with ⟨m, hm, hinf⟩ | h | h
      · exact Or.inl ⟨m, by simp [hm], hinf⟩
      · exact Or.inl ⟨acc.2, by simp, h⟩
      · rcases List.mem_cons.1 h with h | h
        · subst h
          exact Or.inr (Or.inl (List.infix_refl _))
        · exact Or.inr (Or.inr h)
    · rw [if_neg hcond]
      rcases h with ⟨m, hm, hinf⟩ | h | h
      · exact Or.inl ⟨m, hm, hinf⟩
      · refine Or.inr (Or.inl ?_)
        refine h.trans ?_
        rw [String.data_append, String.data_append, List.append_assoc]
        exact (List.prefix_append _ _).isInfix
      · rcases List.mem_cons.1 h with h | h
        · subst h
          refine Or.inr (Or.inl ?_)
          rw [String.data_append]
          exact (List.suffix_append _ _).isInfix
        · exact Or.inr (Or.inr h)

/-- **C8, amended.** For every non-empty list of change notes *in which
each note is at most 2000 characters long*, the rendering loop emits one
or more messages, each of length at most 2000, no note is split across
two messages (each note occurs contiguously inside a single message), and
every note appears in some message.  (The counterexample shows the bound
on the individual notes cannot be dropped, as the claim's unqualified
statement does.) -/
theorem C8_render_bounded (notes : List String) (hne : notes ≠ [])
    (hlen : ∀ n ∈ notes, n.length ≤ 2000) :
    1 ≤ (renderMessages notes).length ∧
    (∀ m ∈ renderMessages notes, m.length ≤ 2000) ∧
    ∀ n ∈ notes, ∃ m ∈ renderMessages notes, n.data <:+: m.data := by
  clear hne
  unfold renderMessages
  have hbound := renderFold_length notes ([], "") hlen (by simp) (by simp)
  refine ⟨by simp, ?_, ?_⟩
  · intro m hm
    rcases List.mem_append.1 hm with h | h
    · exact hbound.1 m h
    · simp at h
      simpa [h] using hbound.2
  · intro n hn
    have := renderFold_contains notes ([], "") n (Or.inr (Or.inr hn))
    rcases this with ⟨m, hm, hinf⟩ | h
    · exact ⟨m, by simp [hm], hinf⟩
    · exact ⟨(notes.foldl renderStep ([], "")).2, by simp, h⟩

/-- **C8, witness.** A concrete non-empty, in-bounds note list. -/
theorem C8_render_bounded_witness :
    (["a"] : List String) ≠ [] ∧
      ∀ m ∈ renderMessages ["a"], m.length ≤ 2000 :=
  ⟨by decide, (C8_render_bounded ["a"] (by decide) (by decide)).2.1⟩

/-- A flag table lifted to the attribute pairs the importer's mask loops
consume (every genuine permission flag resolves to `flagAttr`). -/
def flagAttrs (fl : List (String × Nat)) : List (PermAttr × String) :=
  fl.map (fun f => (.flagAttr f.2, f.1))

/-- `zip` only consumes the prefix of the left list matching the right
list's length. -/
theorem zip_trunc_left {α β : Type} (l1 : List α) (l2 : List β) :
    l1.zip l2 = (l1.take l2.length).zip l2 := by
  induction l1 generalizing l2 with
  | nil => simp
  | cons a t ih =>
    cases l2 with
    | nil => simp
    | cons b t2 => simp [List.zip_cons_cons, ih t2]

/-- A genuine flag never raises in the role-row mask step. -/
theorem roleMaskStep_flag_ok (perms : Nat) (st : Nat × Nat × List String)
    (bit : Nat) (name sign : String) :
    ∃ st2, roleMaskStep perms st ((.flagAttr bit, name), sign) = .ok st2 := by
  unfold roleMaskStep
  dsimp only
  split_ifs <;> exact ⟨_, rfl⟩

/-- A genuine flag never raises in the overwrite-row mask step. -/
theorem owMaskStep_flag_ok (a d : Nat) (st : Nat × Nat × Nat × List String)
    (bit : Nat) (name sign : String) :
    ∃ st2, owMaskStep a d st ((.flagAttr bit, name), sign) = .ok st2 := by
  unfold owMaskStep
  dsimp only
  split_ifs <;> exact ⟨_, rfl⟩

/-- The role-row mask loop never raises over a genuine flag table. -/
theorem computeRoleMasks_ok (fl : List (String × Nat)) (signs : List String)
    (perms : Nat) :
    ∃ v, computeRoleMasks (flagAttrs fl) signs perms = .ok v := by
  unfold computeRoleMasks
  have : ∀ l : List ((PermAttr × String) × String),
      (∀ el ∈ l, ∃ bit, el.1.1 = PermAttr.flagAttr bit) →
      ∀ st, ∃ v, l.foldlM (roleMaskStep perms) st = .ok v := by
    intro l
    induction l with
    | nil => exact fun _ st => ⟨st, rfl⟩
    | cons el t ih =>
      intro h st
      obtain ⟨bit, hbit⟩ := h el (by simp)
      obtain ⟨st2, hst2⟩ := roleMaskStep_flag_ok perms st bit el.1.2 el.2
      have : roleMaskStep perms st el = .ok st2 := by
        rw [show el = ((el.1.1, el.1.2), el.2) from rfl, hbit]
        exact hst2
      rw [List.foldlM_cons, this]
      exact ih (fun e he => h e (by simp [he])) st2
  refine this _ ?_ _
  intro el hel
  have := (List.of_mem_zip hel).1
  unfold flagAttrs at this
  obtain ⟨f, _, hf⟩ := List.mem_map.1 this
  exact ⟨f.2, by rw [← hf]⟩

/-- The overwrite-row mask loop never raises over a genuine flag table. -/
theorem computeOverwriteMasks_ok (fl : List (String × Nat))
    (signs : List String) (a d : Nat) :
    ∃ v, computeOverwriteMasks (flagAttrs fl) signs a d = .ok v := by
  unfold computeOverwriteMasks
  have : ∀ l : List ((PermAttr × String) × String),
      (∀ el ∈ l, ∃ bit, el.1.1 = PermAttr.flagAttr bit) →
      ∀ st, ∃ v, l.foldlM (owMaskStep a d) st = .ok v := by
    intro l
    induction l with
    | nil => exact fun _ st => ⟨st, rfl⟩
    | cons el t ih =>
      intro h st
      obtain ⟨bit, hbit⟩ := h el (by simp)
      obtain ⟨st2, hst2⟩ := owMaskStep_flag_ok a d st bit el.1.2 el.2
      have : owMaskStep a d st el = .ok st2 := by
        rw [show el = ((el.1.1, el.1.2), el.2) from rfl, hbit]
        exact hst2
      rw [List.foldlM_cons, this]
      exact ih (fun e he => h e (by simp [he])) st2
  refine this _ ?_ _
  intro el hel
  have := (List.of_mem_zip hel).1
  unfold flagAttrs at this
  obtain ⟨f, _, hf⟩ := List.mem_map.1 this
  exact ⟨f.2, by rw [← hf]⟩

/-- **C9.** The mask loops zip flags and row symbols positionally and
truncate to the shorter sequence: (1)/(2) a row with fewer symbol columns
than header flags computes the same masks as if the header were truncated
to the symbols present, so the surplus flags contribute nothing; (3)/(4)
over a genuine flag table the loops never raise, so such a short row is
accepted without error; (5) a role-row symbol other than `+`/`-` leaves
the state untouched; (6) an overwrite-row symbol other than `+`/`-`/`/`
leaves the state untouched. -/
theorem C9_zip_truncation_and_unknown_symbols :
    (∀ (flags : List (PermAttr × String)) (signs : List String) (perms : Nat),
      computeRoleMasks flags signs perms =
        computeRoleMasks (flags.take signs.length) signs perms) ∧
    (∀ (flags : List (PermAttr × String)) (signs : List String) (a d : Nat),
      computeOverwriteMasks flags signs a d =
        computeOverwriteMasks (flags.take signs.length) signs a d) ∧
    (∀ (fl : List (String × Nat)) (signs : List String) (perms : Nat),
      ∃ v, computeRoleMasks (flagAttrs fl) signs perms = .ok v) ∧
    (∀ (fl : List (String × Nat)) (signs : List String) (a d : Nat),
      ∃ v, computeOverwriteMasks (flagAttrs fl) signs a d = .ok v) ∧
    (∀ (perms : Nat) (st : Nat × Nat × List String) (f : PermAttr × String)
      (sign : String), sign ≠ "+" → sign ≠ "-" →
      roleMaskStep perms st (f, sign) = .ok st) ∧
    (∀ (a d : Nat) (st : Nat × Nat × Nat × List String) (f : PermAttr × String)
      (sign : String), sign ≠ "+" → sign ≠ "-" → sign ≠ "/" →
      owMaskStep a d st (f, sign) = .ok st) := by
  refine ⟨?_, ?_, computeRoleMasks_ok, computeOverwriteMasks_ok, ?_, ?_⟩
  · intro flags signs perms
    unfold computeRoleMasks
    rw [zip_trunc_left]
  · intro flags signs a d
    unfold computeOverwriteMasks
    rw [zip_trunc_left]
  · intro perms st f sign h1 h2
    unfold roleMaskStep
    simp [h1, h2]
  · intro a d st f sign h1 h2 h3
    unfold owMaskStep
    simp [h1, h2, h3]

/-- **C9, witness.** A concrete short row: the symbol `"?"` at the first
flag is ignored and a genuine flag table accepts it. -/
theorem C9_zip_truncation_witness :
    roleMaskStep 0 (0, 0, []) ((.flagAttr 1, "create_instant_invite"), "?") =
      .ok (0, 0, []) :=
  C9_zip_truncation_and_unknown_symbols.2.2.2.2.1 0 (0, 0, [])
    (.flagAttr 1, "create_instant_invite") "?" (by decide) (by decide)

/-! ### Decimal printing and parsing lemmas -/

theorem digitChar_isDigit (n : Nat) (h : n < 10) : (digitChar n).isDigit = true := by
  interval_cases n <;> decide

theorem digitChar_not_ws (n : Nat) (h : n < 10) :
    isPyWhitespace (digitChar n) = false := by
  interval_cases n <;> decide

theorem digitChar_toNat (n : Nat) (h : n < 10) : (digitChar n).toNat = 48 + n := by
  interval_cases n <;> decide

theorem natChars_ne_nil (fuel n : Nat) (h : 0 < fuel) : natChars fuel n ≠ [] := by
  cases fuel with
  | zero => omega
  | succ f =>
    unfold natChars
    split <;> simp

theorem natChars_digits (fuel : Nat) :
    ∀ n, n < fuel → ∀ c ∈ natChars fuel n,
      c.isDigit = true ∧ isPyWhitespace c = false := by
  induction fuel with
  | zero => intro n h; omega
  | succ f ih =>
    intro n h c hc
    unfold natChars at hc
    by_cases h10 : n < 10
    · rw [if_pos h10] at hc
      simp at hc
      subst hc
      exact ⟨digitChar_isDigit n h10, digitChar_not_ws n h10⟩
    · rw [if_neg h10] at hc
      rcases List.mem_append.1 hc with h2 | h2
      · have hlt : n / 10 < f := by
          have := Nat.div_lt_self (show 0 < n by omega) (show 1 < 10 by norm_num)
          omega
        exact ih (n / 10) hlt c h2
      · simp at h2
        subst h2
        have hm : n % 10 < 10 := Nat.mod_lt _ (by norm_num)
        exact ⟨digitChar_isDigit _ hm, digitChar_not_ws _ hm⟩

theorem digitsVal_append_digit (l : List Char) (c : Char) :
    digitsVal (l ++ [c]) = 10 * digitsVal l + (c.toNat - 48) := by
  unfold digitsVal
  rw [List.foldl_append]
  rfl

theorem digitsVal_natChars (fuel : Nat) :
    ∀ n, n < fuel → digitsVal (natChars fuel n) = n := by
  induction fuel with
  | zero => intro n h; omega
  | succ f ih =>
    intro n h
    unfold natChars
    by_cases h10 : n < 10
    · rw [if_pos h10]
      show 10 * 0 + ((digitChar n).toNat - 48) = n
      rw [digitChar_toNat n h10]
      omega
    · rw [if_neg h10]
      rw [digitsVal_append_digit]
      have hlt : n / 10 < f := by
        have := Nat.div_lt_self (show 0 < n by omega) (show 1 < 10 by norm_num)
        omega
      rw [ih (n / 10) hlt]
      rw [digitChar_toNat (n % 10) (Nat.mod_lt _ (by norm_num))]
      omega

theorem strToInt?_of_digits (l : List Char) (hne : l ≠ [])
    (hdig : ∀ c ∈ l, c.isDigit = true) :
    strToInt? ⟨l⟩ = some ((digitsVal l : Nat) : Int) := by
  cases l with
  | nil => exact absurd rfl hne
  | cons c cs =>
    have hc := hdig c (by simp)
    have h1 : c ≠ '-' := by
      intro he; rw [he] at hc; exact absurd hc (by decide)
    have h2 : c ≠ '+' := by
      intro he; rw [he] at hc; exact absurd hc (by decide)
    show (if c = '-' then _ else if c = '+' then _ else
      (if c :: cs ≠ [] ∧ (c :: cs).all Char.isDigit
        then some (digitsVal (c :: cs)) else none).map (fun n => (n : Int))) = _
    rw [if_neg h1, if_neg h2, if_pos ⟨by simp, List.all_eq_true.2 hdig⟩]
    rfl

theorem strToInt?_none_of_bad (l : List Char) (c : Char) (hc : c ∈ l)
    (hd : c.isDigit = false) (h1 : c ≠ '-') (h2 : c ≠ '+') :
    strToInt? ⟨l⟩ = none := by
  have hall : ∀ rest : List Char, c ∈ rest → rest.all Char.isDigit = false := by
    intro rest hm
    rw [← Bool.not_eq_true]
    intro hcon
    have := List.all_eq_true.1 hcon c hm
    rw [hd] at this
    exact Bool.false_ne_true this
  cases l with
  | nil => rfl
  | cons a cs =>
    show (if a = '-' then
        (if cs ≠ [] ∧ cs.all Char.isDigit then some (digitsVal cs) else none).map
          (fun n => -(n : Int))
      else if a = '+' then
        (if cs ≠ [] ∧ cs.all Char.isDigit then some (digitsVal cs) else none).map
          (fun n => (n : Int))
      else
        (if a :: cs ≠ [] ∧ (a :: cs).all Char.isDigit
          then some (digitsVal (a :: cs)) else none).map (fun n => (n : Int))) = none
    by_cases ha1 : a = '-'
    · have hcr : c ∈ cs := by
        rcases List.mem_cons.1 hc with h | h
        · rw [ha1] at h; exact absurd h h1
        · exact h
      rw [if_pos ha1,
        if_neg (fun hp => by rw [hall cs hcr] at hp; exact Bool.false_ne_true hp.2)]
      rfl
    · by_cases ha2 : a = '+'
      · have hcr : c ∈ cs := by
          rcases List.mem_cons.1 hc with h | h
          · rw [ha2] at h; exact absurd h h2
          · exact h
        rw [if_neg ha1, if_pos ha2,
          if_neg (fun hp => by rw [hall cs hcr] at hp; exact Bool.false_ne_true hp.2)]
        rfl
      · rw [if_neg ha1, if_neg ha2,
          if_neg (fun hp => by rw [hall (a :: cs) hc] at hp; exact Bool.false_ne_true hp.2)]
        rfl

theorem firstToken_of_token (tok rest : List Char) (hne : tok ≠ [])
    (hnws : ∀ c ∈ tok, isPyWhitespace c = false) :
    firstToken ⟨tok ++ ' ' :: rest⟩ = some ⟨tok⟩ := by
  have hdrop : (tok ++ ' ' :: rest).dropWhile isPyWhitespace = tok ++ ' ' :: rest := by
    cases tok with
    | nil => exact absurd rfl hne
    | cons a t =>
      rw [List.cons_append, List.dropWhile_cons, hnws a (by simp)]
      simp
  have htake : (tok ++ ' ' :: rest).takeWhile (fun c => !isPyWhitespace c) = tok := by
    clear hne hdrop
    induction tok with
    | nil =>
      rw [List.nil_append, List.takeWhile_cons]
      simp [isPyWhitespace]
    | cons a t ih =>
      rw [List.cons_append, List.takeWhile_cons, hnws a (by simp)]
      simp only [Bool.not_false, if_pos]
      rw [ih (fun c hcm => hnws c (by simp [hcm]))]
  unfold firstToken
  dsimp only
  rw [hdrop, htake, if_neg hne]

/-! ### Prefix-handling lemmas for target cells -/

theorem isPrefixOf_self_append (p rest : List Char) :
    p.isPrefixOf (p ++ rest) = true := by
  induction p with
  | nil => simp [List.isPrefixOf]
  | cons a t ih => simpa [List.isPrefixOf] using ih

theorem strStartsWith_self_append (p s : String) :
    strStartsWith (p ++ s) p = true := by
  unfold strStartsWith
  rw [String.data_append]
  exact isPrefixOf_self_append _ _

theorem strDrop_self_append (p s : String) :
    strDrop (p ++ s) p.data.length = s := by
  unfold strDrop
  rw [String.data_append, List.drop_left]

theorem user_not_role (x : String) :
    strStartsWith ("User " ++ x) "Role " = false := by
  unfold strStartsWith
  rw [String.data_append]
  show (('R' :: 'o' :: 'l' :: 'e' :: [' ']).isPrefixOf
    ('U' :: 's' :: 'e' :: 'r' :: ' ' :: x.data)) = false
  simp [List.isPrefixOf]

/-- Reduction of `parseTarget` on a `User `-prefixed cell. -/
theorem parseTarget_user (g : Guild) (ln : Nat) (x : String) :
    parseTarget g ln ("User " ++ x) =
      (match firstToken x with
      | none => .error (lineErr ln "IndexError")
      | some tok =>
        match strToInt? tok with
        | none => .error (lineErr ln "expected user ID")
        | some i =>
          match getMember g i with
          | none => .error (lineErr ln ("no such member " ++ intToStr i ++ "."))
          | some m => .ok (.member m)) := by
  unfold parseTarget
  rw [user_not_role]
  rw [if_neg (by simp)]
  rw [strStartsWith_self_append]
  rw [if_pos rfl]
  rw [show (5 : Nat) = ("User " : String).data.length from rfl,
    strDrop_self_append]

/-- **C10.** Parsing a `User <id> <name>` overwrite target uses only the
first whitespace-delimited token after `User `: (1) with a well-formed id
token, the result is entirely determined by `guild.get_member(id)` — the
member with that id when it exists, an error naming the id otherwise —
so the trailing name text is irrelevant; (2) in particular two rows whose
name portions differ (e.g. one disagreeing with the member's actual name)
parse identically; (3) a first token containing a character that is
neither a digit, a sign, nor an underscore is not an integer and fails
with `expected user ID`. -/
theorem C10_user_token_only (g : Guild) (ln : Nat) :
    (∀ (i : Nat) (nm : String),
      parseTarget g ln ("User " ++ natToStr i ++ " " ++ nm) =
        (match getMember g (i : Int) with
        | none => .error (lineErr ln ("no such member " ++ intToStr (i : Int) ++ "."))
        | some m => .ok (.member m))) ∧
    (∀ (i : Nat) (nm nm2 : String),
      parseTarget g ln ("User " ++ natToStr i ++ " " ++ nm) =
        parseTarget g ln ("User " ++ natToStr i ++ " " ++ nm2)) ∧
    (∀ (tok nm : String) (c : Char), c ∈ tok.data →
      (∀ c2 ∈ tok.data, isPyWhitespace c2 = false) →
      c.isDigit = false → c ≠ '-' → c ≠ '+' → c ≠ '_' →
      parseTarget g ln ("User " ++ tok ++ " " ++ nm) =
        .error (lineErr ln "expected user ID")) := by
  have key : ∀ (tok nm : String), tok.data ≠ [] →
      (∀ c ∈ tok.data, isPyWhitespace c = false) →
      parseTarget g ln ("User " ++ tok ++ " " ++ nm) =
        (match strToInt? tok with
        | none => .error (lineErr ln "expected user ID")
        | some i =>
          match getMember g i with
          | none => .error (lineErr ln ("no such member " ++ intToStr i ++ "."))
          | some m => .ok (.member m)) := by
    intro tok nm hne hnws
    have hassoc : ("User " ++ tok ++ " " ++ nm : String) =
        "User " ++ (tok ++ " " ++ nm) := by
      simp [String.append_assoc]
    rw [hassoc, parseTarget_user]
    have hx : (tok ++ " " ++ nm : String) = ⟨tok.data ++ ' ' :: nm.data⟩ := by
      have hd : (tok ++ " " ++ nm : String).data = tok.data ++ ' ' :: nm.data := by
        rw [String.data_append, String.data_append,
          show (" " : String).data = [' '] from rfl, List.append_assoc]
        rfl
      calc tok ++ " " ++ nm = ⟨(tok ++ " " ++ nm : String).data⟩ := rfl
        _ = ⟨tok.data ++ ' ' :: nm.data⟩ := by rw [hd]
    rw [hx, firstToken_of_token tok.data nm.data hne hnws]
  have main : ∀ (i : Nat) (nm : String),
      parseTarget g ln ("User " ++ natToStr i ++ " " ++ nm) =
        (match getMember g (i : Int) with
        | none => .error (lineErr ln ("no such member " ++ intToStr (i : Int) ++ "."))
        | some m => .ok (.member m)) := by
    intro i nm
    have hne : (natToStr i).data ≠ [] := natChars_ne_nil (i + 1) i (by omega)
    have hnws : ∀ c ∈ (natToStr i).data, isPyWhitespace c = false :=
      fun c hc => (natChars_digits (i + 1) i (by omega) c hc).2
    rw [key (natToStr i) nm hne hnws]
    have hint : strToInt? (natToStr i) = some (i : Int) := by
      have h1 := strToInt?_of_digits (natChars (i + 1) i)
        (natChars_ne_nil (i + 1) i (by omega))
        (fun c hc => (natChars_digits (i + 1) i (by omega) c hc).1)
      rw [digitsVal_natChars (i + 1) i (by omega)] at h1
      exact h1
    rw [hint]
  refine ⟨main, fun i nm nm2 => by rw [main i nm, main i nm2], ?_⟩
  intro tok nm c hcmem hnws hd h1 h2 _h3
  have hne : tok.data ≠ [] := by
    intro h; rw [h] at hcmem; cases hcmem
  rw [key tok nm hne hnws]
  rw [show strToInt? tok = none from
    strToInt?_none_of_bad tok.data c hcmem hd h1 h2]

/-- The C10/C6 example member. -/
def exMemberEve : Member := ⟨5, "eve"⟩

/-- A guild containing just that member. -/
def exGuildC10 : Guild := ⟨[], [], [exMemberEve]⟩

/-- **C10, witness.** `User 5 wrongname` resolves to the member with id 5
even though the member's stored name is `eve`, and a non-integer token
fails with `expected user ID`. -/
theorem C10_user_token_only_witness :
    parseTarget exGuildC10 2 ("User " ++ natToStr 5 ++ " " ++ "wrongname") =
      .ok (.member exMemberEve) ∧
    parseTarget exGuildC10 2 ("User " ++ "abc" ++ " " ++ "x") =
      .error (lineErr 2 "expected user ID") := by
  constructor
  · rw [(C10_user_token_only exGuildC10 2).1 5 "wrongname"]
    rfl
  · exact (C10_user_token_only exGuildC10 2).2.2 "abc" "x" 'a' (by decide)
      (by decide) (by decide) (by decide) (by decide) (by decide)

/-- The empty guild, used for header-validation examples (the header is
checked before any guild state is consulted). -/
def emptyGuild : Guild := ⟨[], [], []⟩

/-- **C7, counterexample.** The claim says *any* later header column that
does not name a known permission flag makes the import fail before any
data row.  But flag resolution is `getattr(discord.Permissions, perm)`,
which also succeeds on the class's non-flag attributes: a header whose
fourth column is `value` (the bit-set slot, not a permission flag) is
accepted, and an import of such a CSV with no data rows succeeds with no
error, no notes and no actions. -/
theorem C7_value_column_accepted :
    importperms emptyGuild [["Category", "Channel", "Role/User", "value"]] =
      .ok ([], []) := by
  decide

/-- **C7, amended.** The header checks run before any data row is
processed and their outcome is independent of the data rows: (1) if the
first three header columns are not exactly `Category`, `Channel`,
`Role/User`, the import fails with `Invalid header.` whatever the data
rows are; (2) if flag resolution fails on the remaining columns, then
the import fails with that error (naming the first unrecognized column)
whatever the data rows are; (3) in particular a header column `FLY` —
which is no attribute of the permission class at all — fails naming
`FLY`.  (The counterexample shows the claim's condition "does not name a
known permission flag" is too strong: a column naming a *non-flag
attribute* of the permission class, such as `value`, is accepted at
header time.) -/
theorem C7_header_failure_before_rows :
    (∀ (g : Guild) (header : List String) (rows : List (List String)),
      (header.length < 3 ∨ header.getD 0 "" ≠ "Category" ∨
        header.getD 1 "" ≠ "Channel" ∨ header.getD 2 "" ≠ "Role/User") →
      importperms g (header :: rows) = .error "Invalid header.") ∧
    (∀ (g : Guild) (header : List String) (rows : List (List String)) (e : String),
      ¬(header.length < 3 ∨ header.getD 0 "" ≠ "Category" ∨
        header.getD 1 "" ≠ "Channel" ∨ header.getD 2 "" ≠ "Role/User") →
      parseFlags (header.drop 3) = .error e →
      importperms g (header :: rows) = .error e) ∧
    (∀ (g : Guild) (rows : List (List String)),
      importperms g (["Category", "Channel", "Role/User", "FLY"] :: rows) =
        .error "Unknown permission: 'FLY'") := by
  refine ⟨?_, ?_, ?_⟩
  · intro g header rows h
    unfold importperms
    dsimp only
    rw [if_pos h]
  · intro g header rows e hok he
    unfold importperms
    dsimp only
    rw [if_neg hok, he]
    rfl
  · intro g rows
    have hok : ¬((["Category", "Channel", "Role/User", "FLY"] : List String).length < 3 ∨
        (["Category", "Channel", "Role/User", "FLY"] : List String).getD 0 "" ≠ "Category" ∨
        (["Category", "Channel", "Role/User", "FLY"] : List String).getD 1 "" ≠ "Channel" ∨
        (["Category", "Channel", "Role/User", "FLY"] : List String).getD 2 "" ≠ "Role/User") := by
      decide
    have he : parseFlags ((["Category", "Channel", "Role/User", "FLY"] : List String).drop 3) =
        .error "Unknown permission: 'FLY'" := by
      decide
    unfold importperms
    dsimp only
    rw [if_neg hok, he]
    rfl

/-- **C7, witness.** A header with too few columns fails for any guild and
any data rows; here with one (never-examined) data row present. -/
theorem C7_header_failure_witness :
    importperms emptyGuild [["Category"], ["", "", "Role x"]] =
      .error "Invalid header." :=
  C7_header_failure_before_rows.1 emptyGuild ["Category"] [["", "", "Role x"]]
    (by decide)

/-- First of two channels named `general` (id 100). -/
def exChanGen1 : Channel := ⟨100, "general", .text, 0, none, false, []⟩

/-- Second of two channels named `general` (id 200). -/
def exChanGen2 : Channel := ⟨200, "general", .text, 1, none, false, []⟩

/-- A guild with exactly the two same-named channels. -/
def exGuildC6 : Guild := ⟨[], [exChanGen1, exChanGen2], []⟩

/-- **C6.** Name disambiguation: (1) a channel whose name is unique in the
guild is labelled by its bare name; (2) the import's channel dict is keyed
by the very same `disambiguated_name`, so whenever a channel's label is
unambiguous among the guild's labels, looking the label up returns that
channel; (3) concretely, for two channels both named `general` with ids
100 and 200, export labels them `general (1)` / `general (2)` in id
order, and the import lookup resolves each label back to the channel
with the matching id. -/
theorem C6_disambiguated_roundtrip :
    (∀ (g : Guild) (c : Channel),
      (g.channels.filter (fun c2 => c2.name == c.name)).length < 2 →
      disambiguated_name g c = c.name) ∧
    (∀ (g : Guild) (c : Channel), c ∈ g.channels →
      (∀ c2 ∈ g.channels,
        disambiguated_name g c2 = disambiguated_name g c → c2 = c) →
      channelsLookup g (disambiguated_name g c) = some c) ∧
    (disambiguated_name exGuildC6 exChanGen1 = "general (1)" ∧
      disambiguated_name exGuildC6 exChanGen2 = "general (2)" ∧
      channelsLookup exGuildC6 "general (1)" = some exChanGen1 ∧
      channelsLookup exGuildC6 "general (2)" = some exChanGen2 ∧
      exChanGen1.id = 100 ∧ exChanGen2.id = 200) := by
  refine ⟨?_, ?_, by decide⟩
  · intro g c h
    unfold disambiguated_name
    rw [if_pos h]
  · intro g c hc hinj
    unfold channelsLookup
    cases hfind : g.channels.reverse.find?
        (fun c2 => disambiguated_name g c2 == disambiguated_name g c) with
    | none =>
      exfalso
      have := List.find?_eq_none.1 hfind c (List.mem_reverse.2 hc)
      simp at this
    | some x =>
      have hp := List.find?_some hfind
      have hmem : x ∈ g.channels := List.mem_reverse.1 (List.mem_of_find?_eq_some hfind)
      have hx : disambiguated_name g x = disambiguated_name g c := by
        simpa using hp
      rw [hinj x hmem hx]

/-- **C6, witness.** The general lookup statement applied to the concrete
duplicate-name guild. -/
theorem C6_disambiguated_roundtrip_witness :
    channelsLookup exGuildC6 (disambiguated_name exGuildC6 exChanGen1) =
      some exChanGen1 :=
  C6_disambiguated_roundtrip.2.1 exGuildC6 exChanGen1 (by decide) (by decide)

/-- The condition under which the sync pass schedules a sync action for a
channel: it passes the `isinstance` filter (not a category) and is not
already synced, or was moved in this import, or its effective category is
in the overwrites-changed set. -/
def syncCond (g : Guild) (oc : List Channel)
    (sm : List (Channel × Option Channel)) (c : Channel) : Bool :=
  c.kind != ChannelKind.category &&
    (!c.synced || smMem sm c ||
      (match effectiveCategory g sm c with
       | some nc => ocMem oc nc
       | none => false))

/-- The note the sync pass records for a scheduled channel. -/
def syncNote (g : Guild) (sm : List (Channel × Option Channel))
    (c : Channel) : String :=
  match effectiveCategory g sm c with
  | some nc => "Sync " ++ channelMention c.id ++ " with " ++ channelMention nc.id
  | none => ""

/-- **C5.** The sync pass of the import: (1) a channel marked synced whose
effective category — the moved-to category if this import moved it,
otherwise its current category — is `none` makes the pass (and hence
the import) fail with an error; (2) when every synced channel has an
effective category, the pass succeeds and appends exactly one sync action
and one note per channel satisfying `syncCond`; (3) `syncCond` holds
precisely when the channel is a non-category channel that is not already
synced, or was moved in this import, or whose effective category is in
the overwrites-changed set. -/
theorem C5_sync_scheduling (g : Guild) (oc : List Channel)
    (sm : List (Channel × Option Channel)) :
    (∀ (ws : List Channel) (acc : List Action × List String),
      (∃ c ∈ ws, c.kind ≠ ChannelKind.category ∧
        effectiveCategory g sm c = none) →
      ∃ e, syncPass g oc sm ws acc = .error e) ∧
    (∀ (ws : List Channel) (acc : List Action × List String),
      (∀ c ∈ ws, c.kind ≠ ChannelKind.category →
        (effectiveCategory g sm c).isSome) →
      syncPass g oc sm ws acc = .ok
        (acc.1 ++ (ws.filter (syncCond g oc sm)).map
            (fun c => Action.syncChannel c.id),
         acc.2 ++ (ws.filter (syncCond g oc sm)).map (syncNote g sm))) ∧
    (∀ c : Channel, syncCond g oc sm c = true ↔
      (c.kind ≠ ChannelKind.category ∧
        (c.synced = false ∨ smMem sm c = true ∨
          ∃ nc, effectiveCategory g sm c = some nc ∧ ocMem oc nc = true))) := by
  refine ⟨?_, ?_, ?_⟩
  · intro ws
    induction ws with
    | nil => rintro acc ⟨c, hc, _⟩; cases hc
    | cons hd tl ih =>
      rintro ⟨actions, output⟩ ⟨c, hc, hk, heff⟩
      unfold syncPass
      by_cases hhd : hd.kind = ChannelKind.category
      · rw [if_pos hhd]
        rcases List.mem_cons.1 hc with h | h
        · subst h; exact absurd hhd hk
        · exact ih _ ⟨c, h, hk, heff⟩
      · rw [if_neg hhd]
        dsimp only
        cases hcat : effectiveCategory g sm hd with
        | none => exact ⟨_, rfl⟩
        | some nc =>
          have hct : c ∈ tl := by
            rcases List.mem_cons.1 hc with h | h
            · subst h; rw [hcat] at heff; cases heff
            · exact h
          dsimp only
          split_ifs <;> exact ih _ ⟨c, hct, hk, heff⟩
  · intro ws
    induction ws with
    | nil => intro acc _; simp [syncPass]
    | cons hd tl ih =>
      rintro ⟨actions, output⟩ hall
      unfold syncPass
      by_cases hhd : hd.kind = ChannelKind.category
      · rw [if_pos hhd]
        have hcond : syncCond g oc sm hd = false := by
          unfold syncCond
          simp [hhd]
        rw [List.filter_cons_of_neg (by rw [hcond]; exact Bool.false_ne_true)]
        exact ih _ (fun c hc hk => hall c (by simp [hc]) hk)
      · rw [if_neg hhd]
        dsimp only
        cases hcat : effectiveCategory g sm hd with
        | none =>
          exfalso
          have := hall hd (by simp) hhd
          rw [hcat] at this
          cases this
        | some nc =>
          have htl : ∀ c ∈ tl, c.kind ≠ ChannelKind.category →
              (effectiveCategory g sm c).isSome :=
            fun c hc hk => hall c (by simp [hc]) hk
          by_cases hsched : ¬hd.synced ∨ smMem sm hd ∨ ocMem oc nc
          · dsimp only
            rw [if_pos hsched]
            have hcond : syncCond g oc sm hd = true := by
              unfold syncCond
              rw [hcat]
              rcases hsched with h | h | h
              · simp [hhd, h]
              · simp [hhd, h]
              · simp [hhd, h]
            rw [List.filter_cons_of_pos hcond]
            rw [ih _ htl]
            have hnote : syncNote g sm hd =
                "Sync " ++ channelMention hd.id ++ " with " ++ channelMention nc.id := by
              unfold syncNote
              rw [hcat]
            simp [hnote]
          · dsimp only
            rw [if_neg hsched]
            have hcond : syncCond g oc sm hd = false := by
              unfold syncCond
              rw [hcat]
              push_neg at hsched
              obtain ⟨h1, h2, h3⟩ := hsched
              have h2b : smMem sm hd = false := Bool.eq_false_iff.2 h2
              have h3b : ocMem oc nc = false := Bool.eq_false_iff.2 h3
              simp [h1, h2b, h3b]
            rw [List.filter_cons_of_neg (by rw [hcond]; exact Bool.false_ne_true)]
            exact ih _ htl
  · intro c
    unfold syncCond
    cases hcat : effectiveCategory g sm c with
    | none =>
      constructor
      · intro h
        simp at h
        refine ⟨by simpa using h.1, ?_⟩
        rcases h.2 with h2 | h2
        · exact Or.inl (by simpa using h2)
        · exact Or.inr (Or.inl h2)
      · rintro ⟨h1, h2⟩
        simp only [Bool.and_eq_true, Bool.or_eq_true]
        refine ⟨by simpa using h1, ?_⟩
        rcases h2 with h2 | h2 | ⟨nc, hnc, _⟩
        · exact Or.inl (Or.inl (by simp [h2]))
        · exact Or.inl (Or.inr h2)
        · simp at hnc
    | some nc =>
      constructor
      · intro h
        simp only [Bool.and_eq_true, Bool.or_eq_true] at h
        refine ⟨by simpa using h.1, ?_⟩
        rcases h.2 with (h2 | h2) | h2
        · exact Or.inl (by simpa using h2)
        · exact Or.inr (Or.inl h2)
        · exact Or.inr (Or.inr ⟨nc, rfl, h2⟩)
      · rintro ⟨h1, h2⟩
        simp only [Bool.and_eq_true, Bool.or_eq_true]
        refine ⟨by simpa using h1, ?_⟩
        rcases h2 with h2 | h2 | ⟨nc2, hnc2, h2⟩
        · exact Or.inl (Or.inl (by simp [h2]))
        · exact Or.inl (Or.inr h2)
        · obtain rfl : nc = nc2 := Option.some.inj hnc2
          exact Or.inr h2

/-- The C5 example category (id 3). -/
def exChanCatC : Channel := ⟨3, "c", .category, 0, none, false, []⟩

/-- The C5 example channel: synced under category 3. -/
def exChanSyncA : Channel := ⟨1, "a", .text, 0, some 3, true, []⟩

/-- The C5 example guild. -/
def exGuildC5 : Guild := ⟨[], [exChanCatC, exChanSyncA], []⟩

/-- **C5, witness.** The spec's own scenario: a channel already synced,
not moved, whose category's overwrites did not change gets no sync
action; the same channel with its category in the overwrites-changed set
gets exactly one. -/
theorem C5_sync_scheduling_witness :
    syncPass exGuildC5 [] [] [exChanSyncA] ([], []) = .ok ([], []) ∧
    syncPass exGuildC5 [exChanCatC] [] [exChanSyncA] ([], []) =
      .ok ([Action.syncChannel 1], ["Sync <#1> with <#3>"]) := by
  constructor
  · exact ((C5_sync_scheduling exGuildC5 [] []).2.1 [exChanSyncA] ([], [])
      (by decide)).trans (by decide)
  · exact ((C5_sync_scheduling exGuildC5 [exChanCatC] []).2.1 [exChanSyncA]
      ([], []) (by decide)).trans (by decide)

/-- The C3 example category (id 3, named `c`). -/
def exChanCat3 : Channel := ⟨3, "c", .category, 0, none, false, []⟩

/-- The C3 example channel `a` (id 1): synced under category 3 and marked
`(synced)` in the input, yet also touched by an empty-target row. -/
def exChanA3 : Channel := ⟨1, "a", .text, 0, some 3, true, []⟩

/-- The C3 example channel `b` (id 2): not synced, touched by the *last*
channel row of the CSV. -/
def exChanB3 : Channel := ⟨2, "b", .text, 1, none, false, []⟩

/-- The C3 example guild. -/
def exGuildC3 : Guild := ⟨[], [exChanCat3, exChanA3, exChanB3], []⟩

/-- The C3 input rows: channel `a` is touched and marked synced, channel
`b` is touched last (so the leftover `channel` variable entering the
second pass is `b`). -/
def exRowsC3 : List (List String) :=
  [["Category", "Channel", "Role/User"],
   ["c", "a", ""],
   ["c", "a", "(synced)"],
   ["", "b", ""]]

/-- **C3 (code_bug demonstration).** On this input the second pass
schedules exactly one overwrite-edit action — for channel `a` (id 1),
which *is* marked synced in the input, with no nonzero stored mask and no
removal — and schedules none for channel `b` (id 2), which is touched and
*not* marked synced.  This contradicts all three parts of the claim: the
`only if at least one mask is nonzero or a removal is present` condition
(the code appends the action unconditionally), `exactly one action per
touched non-synced channel` (`b` gets none), and `a synced channel is
never scheduled` (`a` gets one).  The cause is the loop guard
`if channel in want_sync: continue`, which tests the leftover `channel`
variable (here `b`, then `a`) instead of the loop variable `chan` —
the variable-shadowing slip the spec itself flags as a latent bug. -/
theorem C3_stale_channel_guard :
    importperms exGuildC3 exRowsC3 =
      .ok ([], [Action.editOverwrites 1 []]) ∧
    exChanA3.id = 1 ∧ exChanB3.id = 2 := by
  decide

/-- The C1 example role. -/
def exRoleC1 : Role := ⟨50, "@everyone", 0⟩

/-- The C1 example channel: a plain unsynced text channel with no
category and no overwrites. -/
def exChanC1 : Channel := ⟨100, "general", .text, 0, none, false, []⟩

/-- The C1 example guild. -/
def exGuildC1 : Guild := ⟨[exRoleC1], [exChanC1], []⟩

/-- **C1, counterexample.** Exporting this (perfectly ordinary) guild and
re-importing the unmodified CSV computes zero change notes but schedules
*one* action — the second pass appends an overwrite-edit action for every
touched non-synced channel unconditionally, so `general` gets a (no-op)
edit.  The claim's "zero scheduled actions" is false. -/
theorem C1_roundtrip_schedules_action :
    importperms exGuildC1 (exportperms exGuildC1) =
      .ok ([], [Action.editOverwrites 100 []]) ∧
    ([Action.editOverwrites 100 []] : List Action) ≠ [] := by
  decide

/-- Well-formedness of a guild snapshot, as discord itself guarantees it:
distinct ids and role names, label disambiguation injective, categories
resolve to category channels, categories are never synced, synced
channels have a category, overwrite targets are guild roles/members and
are distinct per channel, channel names are non-empty. -/
structure WF (g : Guild) : Prop where
  chanIds : g.channels.Pairwise (fun a b => a.id ≠ b.id)
  roleNames : g.roles.Pairwise (fun a b => a.name ≠ b.name)
  memberIds : g.members.Pairwise (fun a b => a.id ≠ b.id)
  disambInj : ∀ c1 ∈ g.channels, ∀ c2 ∈ g.channels,
    disambiguated_name g c1 = disambiguated_name g c2 → c1 = c2
  nameNonempty : ∀ c ∈ g.channels, c.name ≠ ""
  catValid : ∀ c ∈ g.channels, ∀ i, c.categoryId = some i →
    ∃ cat ∈ g.channels, cat.id = i ∧ cat.kind = ChannelKind.category
  catNotSynced : ∀ c ∈ g.channels, c.kind = ChannelKind.category →
    c.synced = false
  syncedHasCat : ∀ c ∈ g.channels, c.synced = true → c.categoryId ≠ none
  targetRoles : ∀ c ∈ g.channels, ∀ p ∈ c.overwrites, ∀ r,
    p.1 = Target.role r → r ∈ g.roles
  targetMembers : ∀ c ∈ g.channels, ∀ p ∈ c.overwrites, ∀ m,
    p.1 = Target.member m → m ∈ g.members
  targetIds : ∀ c ∈ g.channels,
    c.overwrites.Pairwise (fun a b => a.1.tid ≠ b.1.tid)

/-- `find?` by a key returns the element itself when keys are pairwise
distinct. -/
theorem find?_eq_of_key {α β : Type} [DecidableEq β] (f : α → β) :
    ∀ (l : List α) (x : α), l.Pairwise (fun a b => f a ≠ f b) → x ∈ l →
    l.find? (fun y => f y == f x) = some x := by
  intro l
  induction l with
  | nil => intro x _ hx; cases hx
  | cons h t ih =>
    intro x hp hx
    by_cases hfy : f h = f x
    · have hx2 : x = h := by
        rcases List.mem_cons.1 hx with h1 | h1
        · exact h1
        · exact absurd hfy ((List.pairwise_cons.1 hp).1 x h1)
      rw [List.find?_cons_of_pos _ (by simp [hfy]), hx2]
    · rw [List.find?_cons_of_neg _ (by simp [hfy])]
      have hxt : x ∈ t := by
        rcases List.mem_cons.1 hx with h1 | h1
        · subst h1; exact absurd rfl hfy
        · exact h1
      exact ih x (List.pairwise_cons.1 hp).2 hxt

/-- Reversal preserves pairwise key-distinctness. -/
theorem pairwise_key_reverse {α β : Type} (f : α → β) (l : List α)
    (hp : l.Pairwise (fun a b => f a ≠ f b)) :
    l.reverse.Pairwise (fun a b => f a ≠ f b) :=
  ((l.reverse_perm).pairwise_iff (fun h he => h he.symm)).2 hp

/-- Role-name lookup resolves a guild role to itself. -/
theorem rolesLookup_self (g : Guild) (r : Role)
    (hp : g.roles.Pairwise (fun a b => a.name ≠ b.name)) (hr : r ∈ g.roles) :
    rolesLookup g r.name = some r := by
  have := find?_eq_of_key (fun r2 : Role => r2.name) g.roles.reverse r
    (pairwise_key_reverse _ _ hp) (List.mem_reverse.2 hr)
  simpa [rolesLookup] using this

/-- Channel lookup by disambiguated label resolves a guild channel to
itself. -/
theorem channelsLookup_self (g : Guild) (c : Channel)
    (hids : g.channels.Pairwise (fun a b => a.id ≠ b.id))
    (hinj : ∀ c1 ∈ g.channels, ∀ c2 ∈ g.channels,
      disambiguated_name g c1 = disambiguated_name g c2 → c1 = c2)
    (hc : c ∈ g.channels) :
    channelsLookup g (disambiguated_name g c) = some c := by
  have hpair : g.channels.Pairwise
      (fun a b => disambiguated_name g a ≠ disambiguated_name g b) := by
    refine hids.imp_of_mem ?_
    intro a b ha hb hne heq
    exact hne (congrArg (fun x => x.id) (hinj a ha b hb heq))
  have := find?_eq_of_key (disambiguated_name g) g.channels.reverse c
    (pairwise_key_reverse _ _ hpair) (List.mem_reverse.2 hc)
  simpa [channelsLookup] using this

/-- Member lookup by id resolves a guild member to itself. -/
theorem getMember_self (g : Guild) (m : Member)
    (hp : g.members.Pairwise (fun a b => a.id ≠ b.id)) (hm : m ∈ g.members) :
    getMember g (m.id : Int) = some m := by
  have hp2 : g.members.Pairwise (fun a b => (a.id : Int) ≠ (b.id : Int)) :=
    hp.imp (fun h he => h (Int.ofNat.inj he))
  have := find?_eq_of_key (fun m2 : Member => (m2.id : Int)) g.members m hp2 hm
  simpa [getMember] using this

/-- `overwrites_for` returns the stored overwrite of a listed target when
target ids are distinct. -/
theorem overwrites_for_self (c : Channel) (p : Target × Overwrite)
    (hp : c.overwrites.Pairwise (fun a b => a.1.tid ≠ b.1.tid))
    (hmem : p ∈ c.overwrites) :
    overwrites_for c p.1 = p.2 := by
  have := find?_eq_of_key (fun e : Target × Overwrite => e.1.tid)
    c.overwrites p hp hmem
  simp only [overwrites_for]
  rw [show c.overwrites.find? (fun e => e.1.tid == p.1.tid) = some p from this]

/-- A guild category reference resolves to the unique category channel
with that id. -/
theorem category_resolves (g : Guild) (c : Channel) (i : Nat)
    (hids : g.channels.Pairwise (fun a b => a.id ≠ b.id))
    (hcat : ∃ cat ∈ g.channels, cat.id = i ∧ cat.kind = ChannelKind.category)
    (hi : c.categoryId = some i) :
    ∃ cat, category g c = some cat ∧ cat ∈ g.channels ∧ cat.id = i ∧
      cat.kind = ChannelKind.category := by
  obtain ⟨cat, hmem, hid, hkind⟩ := hcat
  refine ⟨cat, ?_, hmem, hid, hkind⟩
  unfold category
  rw [hi]
  have := find?_eq_of_key (fun c2 : Channel => c2.id) g.channels cat hids hmem
  show g.channels.find? (fun c2 => c2.id == i) = some cat
  rw [show (fun c2 : Channel => c2.id == i) = (fun c2 : Channel => c2.id == cat.id) by
    funext c2; rw [hid]]
  exact this

/-- Re-importing a role row produced by the exporter computes zero masks
and no change notes, over any flag table. -/
theorem roleMasks_roundtrip_zero (perms : Nat) :
    ∀ (fl : List (String × Nat)) (st : Nat × Nat × List String),
    ((flagAttrs fl).zip (fl.map
        (fun f => if perms &&& f.2 ≠ 0 then "+" else "-"))).foldlM
      (roleMaskStep perms) st = .ok st := by
  intro fl
  induction fl with
  | nil => intro st; rfl
  | cons f t ih =>
    intro st
    show ((((PermAttr.flagAttr f.2, f.1),
        if perms &&& f.2 ≠ 0 then "+" else "-")) ::
        ((flagAttrs t).zip (t.map
          (fun f => if perms &&& f.2 ≠ 0 then "+" else "-")))).foldlM
      (roleMaskStep perms) st = .ok st
    rw [List.foldlM_cons]
    by_cases hb : perms &&& f.2 ≠ 0
    · rw [if_pos hb]
      have hstep : roleMaskStep perms st ((PermAttr.flagAttr f.2, f.1), "+") =
          .ok st := by
        simp [roleMaskStep, hb]
      rw [hstep]
      exact ih st
    · rw [if_neg hb]
      have hstep : roleMaskStep perms st ((PermAttr.flagAttr f.2, f.1), "-") =
          .ok st := by
        simp at hb
        simp [roleMaskStep, hb]
      rw [hstep]
      exact ih st

/-- The instantiation used by the importer on exported role rows. -/
theorem computeRoleMasks_roundtrip (perms : Nat) :
    computeRoleMasks (flagAttrs permFlags) (roleSymbols perms) perms =
      .ok (0, 0, []) := by
  unfold computeRoleMasks roleSymbols
  exact roleMasks_roundtrip_zero perms permFlags (0, 0, [])

/-- Re-importing an overwrite row produced by the exporter computes zero
masks and no change notes, over any flag table. -/
theorem owMasks_roundtrip_zero (a d : Nat) :
    ∀ (fl : List (String × Nat)) (st : Nat × Nat × Nat × List String),
    ((flagAttrs fl).zip (fl.map
        (fun f => if a &&& f.2 ≠ 0 then "+"
          else if d &&& f.2 ≠ 0 then "-" else "/"))).foldlM
      (owMaskStep a d) st = .ok st := by
  intro fl
  induction fl with
  | nil => intro st; rfl
  | cons f t ih =>
    intro st
    show ((((PermAttr.flagAttr f.2, f.1),
        if a &&& f.2 ≠ 0 then "+" else if d &&& f.2 ≠ 0 then "-" else "/")) ::
        ((flagAttrs t).zip (t.map
          (fun f => if a &&& f.2 ≠ 0 then "+"
            else if d &&& f.2 ≠ 0 then "-" else "/")))).foldlM
      (owMaskStep a d) st = .ok st
    rw [List.foldlM_cons]
    by_cases hba : a &&& f.2 ≠ 0
    · rw [if_pos hba]
      have hstep : owMaskStep a d st ((PermAttr.flagAttr f.2, f.1), "+") =
          .ok st := by
        simp [owMaskStep, hba]
      rw [hstep]
      exact ih st
    · rw [if_neg hba]
      by_cases hbd : d &&& f.2 ≠ 0
      · rw [if_pos hbd]
        have hstep : owMaskStep a d st ((PermAttr.flagAttr f.2, f.1), "-") =
            .ok st := by
          simp at hbd
          simp [owMaskStep, hbd]
        rw [hstep]
        exact ih st
      · rw [if_neg hbd]
        have hstep : owMaskStep a d st ((PermAttr.flagAttr f.2, f.1), "/") =
            .ok st := by
          simp at hba hbd
          simp [owMaskStep, hba, hbd]
        rw [hstep]
        exact ih st

/-- The instantiation used by the importer on exported overwrite rows. -/
theorem computeOverwriteMasks_roundtrip (o : Overwrite) :
    computeOverwriteMasks (flagAttrs permFlags) (overwriteSymbols o)
      o.allow o.deny = .ok (0, 0, 0, []) := by
  unfold computeOverwriteMasks overwriteSymbols
  exact owMasks_roundtrip_zero o.allow o.deny permFlags (0, 0, 0, [])

/-- The canonical header's flag columns parse back to the canonical flag
table. -/
theorem parseFlags_canonical :
    parseFlags (permFlags.map Prod.fst) = .ok (flagAttrs permFlags) := by
  decide

/-- Processing a role row produced by the exporter leaves the state
unchanged. -/
theorem processRow_roleRow (g : Guild) (st : ImpState) (ln : Nat) (r : Role)
    (hp : g.roles.Pairwise (fun a b => a.name ≠ b.name)) (hr : r ∈ g.roles) :
    processRow g (flagAttrs permFlags) st ln
      ("" :: "" :: ("Role " ++ r.name) :: roleSymbols r.permissions) =
      .ok st := by
  unfold processRow
  rw [if_neg (by simp only [List.length_cons]; omega)]
  simp only [List.getD_cons_zero, List.getD_cons_succ]
  rw [if_pos (show ((("" : String) == "") && (("" : String) == "")) = true from rfl)]
  rw [if_neg (by
    rw [show strStartsWith ("Role " ++ r.name) "Role " = true from
      strStartsWith_self_append "Role " r.name]
    decide)]
  rw [show strDrop ("Role " ++ r.name) 5 = r.name from
    strDrop_self_append "Role " r.name]
  rw [rolesLookup_self g r hp hr]
  dsimp only
  rw [show List.drop 3 ("" :: "" :: ("Role " ++ r.name) ::
    roleSymbols r.permissions) = roleSymbols r.permissions from rfl]
  rw [computeRoleMasks_roundtrip]
  rfl

/-! ### Helper lemmas for the round-trip theorem -/

theorem optChanEq_refl (x : Option Channel) : optChanEq x x = true := by
  cases x <;> simp [optChanEq]

/-- A string append is empty only if both parts are. -/
theorem append_ne_empty_left (s t : String) (h : s ≠ "") : s ++ t ≠ "" := by
  intro heq
  apply h
  have hd := congrArg String.data heq
  rw [String.data_append] at hd
  have : s.data = [] := (List.append_eq_nil.1 hd).1
  calc s = ⟨s.data⟩ := rfl
    _ = ⟨[]⟩ := by rw [this]

/-- Disambiguated names of nonempty-named channels are nonempty. -/
theorem disamb_ne_empty (g : Guild) (c : Channel) (h : c.name ≠ "") :
    disambiguated_name g c ≠ "" := by
  unfold disambiguated_name
  dsimp only
  split
  · exact h
  · split
    · exact append_ne_empty_left _ _ (append_ne_empty_left _ _ (append_ne_empty_left _ _ h))
    · exact append_ne_empty_left _ _ (append_ne_empty_left _ _ (append_ne_empty_left _ _ h))

theorem noMem_append (l1 l2 : List (Channel × List (Target × (Nat × Nat × Nat))))
    (c : Channel) : noMem (l1 ++ l2) c = (noMem l1 c || noMem l2 c) := by
  unfold noMem
  rw [List.any_append]

theorem wsMem_append (l1 l2 : List Channel) (c : Channel) :
    wsMem (l1 ++ l2) c = (wsMem l1 c || wsMem l2 c) := by
  unfold wsMem
  rw [List.any_append]

/-- `noTouch` appends a fresh empty entry for an unseen channel. -/
theorem noTouch_of_new (l : List (Channel × List (Target × (Nat × Nat × Nat))))
    (c : Channel) (h : noMem l c = false) : noTouch l c = l ++ [(c, [])] := by
  unfold noTouch
  rw [h]
  rfl

/-- `entriesSet` appends when the key is new. -/
theorem entriesSet_of_new (ts : List (Target × (Nat × Nat × Nat))) (t : Target)
    (m : Nat × Nat × Nat) (h : ts.any (fun e => e.1.key == t.key) = false) :
    entriesSet ts t m = ts ++ [(t, m)] := by
  unfold entriesSet
  rw [h]
  rfl

/-- `noSet` updates the (unique, last) entry of the channel in place. -/
theorem noSet_of_last (l1 : List (Channel × List (Target × (Nat × Nat × Nat))))
    (c : Channel) (ts : List (Target × (Nat × Nat × Nat))) (t : Target)
    (m : Nat × Nat × Nat) (h : noMem l1 c = false) :
    noSet (l1 ++ [(c, ts)]) c t m = l1 ++ [(c, entriesSet ts t m)] := by
  unfold noSet
  have hmem : noMem (l1 ++ [(c, ts)]) c = true := by
    rw [noMem_append, h]
    simp [noMem]
  rw [hmem]
  simp only [if_pos]
  rw [List.map_append]
  congr 1
  · calc List.map (fun e => if (e.1.id == c.id) = true
          then (e.1, entriesSet e.2 t m) else e) l1
        = List.map id l1 := by
          apply List.map_congr_left
          intro e he
          have hne : (e.1.id == c.id) = false := by
            unfold noMem at h
            have := List.any_eq_false.1 h e he
            simpa using this
          rw [hne]
          rfl
      _ = l1 := List.map_id l1
  · simp

/-- `wsAdd` appends an unseen channel. -/
theorem wsAdd_of_new (l : List Channel) (c : Channel)
    (h : wsMem l c = false) : wsAdd l c = l ++ [c] := by
  unfold wsAdd
  unfold wsMem at h
  rw [h]
  rfl

/-- The row-loop append lemma. -/
theorem processRows_append (g : Guild) (flags : List (PermAttr × String)) :
    ∀ (xs ys : List (List String)) (ln : Nat) (st : ImpState),
    processRows g flags (xs ++ ys) ln st =
      (processRows g flags xs ln st).bind
        (processRows g flags ys (ln + xs.length)) := by
  intro xs
  induction xs with
  | nil =>
    intro ys ln st
    rfl
  | cons x t ih =>
    intro ys ln st
    rw [List.cons_append]
    show (processRow g flags st ln x).bind (processRows g flags (t ++ ys) (ln + 1)) =
      ((processRow g flags st ln x).bind (processRows g flags t (ln + 1))).bind
        (processRows g flags ys (ln + (t.length + 1)))
    cases hx : processRow g flags st ln x with
    | error e => rfl
    | ok st2 =>
      show processRows g flags (t ++ ys) (ln + 1) st2 =
        (processRows g flags t (ln + 1) st2).bind
          (processRows g flags ys (ln + (t.length + 1)))
      rw [ih ys (ln + 1) st2,
        show ln + 1 + t.length = ln + (t.length + 1) from by omega]

/-- The member-target parse is determined by `get_member` of the first
token (same reduction as in the C10 development, packaged for reuse). -/
theorem parseTarget_user_resolves (g : Guild) (ln : Nat) (i : Nat) (nm : String) :
    parseTarget g ln ("User " ++ natToStr i ++ " " ++ nm) =
      (match getMember g (i : Int) with
      | none => .error (lineErr ln ("no such member " ++ intToStr (i : Int) ++ "."))
      | some m => .ok (.member m)) := by
  have hassoc : ("User " ++ natToStr i ++ " " ++ nm : String) =
      "User " ++ (natToStr i ++ " " ++ nm) := by
    simp [String.append_assoc]
  rw [hassoc, parseTarget_user]
  have hne : (natToStr i).data ≠ [] := natChars_ne_nil (i + 1) i (by omega)
  have hnws : ∀ c ∈ (natToStr i).data, isPyWhitespace c = false :=
    fun c hc => (natChars_digits (i + 1) i (by omega) c hc).2
  have hx : (natToStr i ++ " " ++ nm : String) =
      ⟨(natToStr i).data ++ ' ' :: nm.data⟩ := by
    have hd : (natToStr i ++ " " ++ nm : String).data =
        (natToStr i).data ++ ' ' :: nm.data := by
      rw [String.data_append, String.data_append,
        show (" " : String).data = [' '] from rfl, List.append_assoc]
      rfl
    calc natToStr i ++ " " ++ nm = ⟨(natToStr i ++ " " ++ nm : String).data⟩ := rfl
      _ = ⟨(natToStr i).data ++ ' ' :: nm.data⟩ := by rw [hd]
  rw [hx, firstToken_of_token (natToStr i).data nm.data hne hnws]
  dsimp only
  have hint : strToInt? (natToStr i) = some (i : Int) := by
    have h1 := strToInt?_of_digits (natChars (i + 1) i)
      (natChars_ne_nil (i + 1) i (by omega))
      (fun c hc => (natChars_digits (i + 1) i (by omega) c hc).1)
    rw [digitsVal_natChars (i + 1) i (by omega)] at h1
    exact h1
  rw [show strToInt? (⟨(natToStr i).data⟩ : String) = some (i : Int) from hint]

/-- Re-importing an exported target cell resolves to the very target. -/
theorem parseTarget_roundtrip (g : Guild) (ln : Nat) (t : Target)
    (hroles : g.roles.Pairwise (fun a b => a.name ≠ b.name))
    (hmembers : g.members.Pairwise (fun a b => a.id ≠ b.id))
    (hr : ∀ r, t = Target.role r → r ∈ g.roles)
    (hm : ∀ m, t = Target.member m → m ∈ g.members) :
    parseTarget g ln (targetName t) = .ok t := by
  cases t with
  | role r =>
    show parseTarget g ln ("Role " ++ r.name) = .ok (.role r)
    unfold parseTarget
    rw [show strStartsWith ("Role " ++ r.name) "Role " = true from
      strStartsWith_self_append "Role " r.name]
    rw [if_pos rfl]
    rw [show strDrop ("Role " ++ r.name) 5 = r.name from
      strDrop_self_append "Role " r.name]
    dsimp only
    rw [rolesLookup_self g r hroles (hr r rfl)]
  | member m =>
    show parseTarget g ln ("User " ++ natToStr m.id ++ " " ++ m.name) =
      .ok (.member m)
    rw [parseTarget_user_resolves g ln m.id m.name,
      getMember_self g m hmembers (hm m rfl)]

/-- Processing the header/touch row of a category block registers the
category in `new_overwrites` and records it as the last channel. -/
theorem processRow_catHeaderRow (g : Guild) (st : ImpState) (ln : Nat)
    (c : Channel)
    (hids : g.channels.Pairwise (fun a b => a.id ≠ b.id))
    (hinj : ∀ c1 ∈ g.channels, ∀ c2 ∈ g.channels,
      disambiguated_name g c1 = disambiguated_name g c2 → c1 = c2)
    (hc : c ∈ g.channels) (hkind : c.kind = ChannelKind.category)
    (hname : c.name ≠ "") :
    processRow g (flagAttrs permFlags) st ln [disambiguated_name g c, "", ""] =
      .ok { st with newOverwrites := noTouch st.newOverwrites c,
                    lastChannel := some c } := by
  have hb0 : (disambiguated_name g c == "") = false :=
    beq_eq_false_iff_ne.2 (disamb_ne_empty g c hname)
  unfold processRow
  rw [if_neg (by simp only [List.length_cons]; omega)]
  simp only [List.getD_cons_zero, List.getD_cons_succ]
  rw [if_neg (by rw [hb0]; simp)]
  rw [if_pos (show ((("" : String) == "")) = true from rfl)]
  rw [channelsLookup_self g c hids hinj hc]
  show (if c.kind ≠ ChannelKind.category then
      Except.error (lineErr ln ("'" ++ disambiguated_name g c ++ "' is not a category."))
    else Except.ok (c, (none : Option Channel))).bind _ = _
  rw [if_neg (by rw [hkind]; simp)]
  show (if (decide (c.kind ≠ ChannelKind.category) &&
      !optChanEq (category g c) none) = true then _ else _ : Except String ImpState).bind _ = _
  rw [if_neg (by rw [hkind]; simp)]
  rfl

/-- The import's resolution of an exported `Category` cell returns the
channel's actual category. -/
theorem resolveCatCell (g : Guild) (ln : Nat) (c : Channel)
    (hids : g.channels.Pairwise (fun a b => a.id ≠ b.id))
    (hinj : ∀ c1 ∈ g.channels, ∀ c2 ∈ g.channels,
      disambiguated_name g c1 = disambiguated_name g c2 → c1 = c2)
    (hnames : ∀ c2 ∈ g.channels, c2.name ≠ "")
    (hcat : ∀ i, c.categoryId = some i →
      ∃ cat ∈ g.channels, cat.id = i ∧ cat.kind = ChannelKind.category) :
    (if (catName g c == "") = true then
        Except.ok (none : Option Channel)
      else
        match channelsLookup g (catName g c) with
        | none => Except.error (lineErr ln ("unknown channel '" ++ catName g c ++ "'."))
        | some cat =>
          if cat.kind ≠ ChannelKind.category then
            Except.error (lineErr ln ("'" ++ catName g c ++ "' is not a category."))
          else Except.ok (some cat)) = Except.ok (category g c) := by
  cases hcid : c.categoryId with
  | none =>
    have hcatnone : category g c = none := by
      unfold category
      rw [hcid]
      rfl
    rw [show catName g c = "" from by unfold catName; rw [hcatnone]]
    rw [hcatnone]
    rfl
  | some i =>
    obtain ⟨cat, hcateq, hcmem, hcid2, hckind⟩ :=
      category_resolves g c i hids (hcat i hcid) hcid
    have hcn : catName g c = disambiguated_name g cat := by
      unfold catName
      rw [hcateq]
    rw [hcn]
    rw [if_neg (by
      rw [beq_eq_false_iff_ne.2 (disamb_ne_empty g cat (hnames cat hcmem))]
      exact Bool.false_ne_true)]
    rw [channelsLookup_self g cat hids hinj hcmem]
    dsimp only
    rw [if_neg (by rw [hckind]; simp), hcateq]

/-- Processing the header row of a non-synced, non-category channel block
registers the channel in `new_overwrites`. -/
theorem processRow_chanHeaderRow (g : Guild) (st : ImpState) (ln : Nat)
    (c : Channel)
    (hids : g.channels.Pairwise (fun a b => a.id ≠ b.id))
    (hinj : ∀ c1 ∈ g.channels, ∀ c2 ∈ g.channels,
      disambiguated_name g c1 = disambiguated_name g c2 → c1 = c2)
    (hc : c ∈ g.channels) (hkind : c.kind ≠ ChannelKind.category)
    (hname : c.name ≠ "")
    (hnames : ∀ c2 ∈ g.channels, c2.name ≠ "")
    (hcat : ∀ i, c.categoryId = some i →
      ∃ cat ∈ g.channels, cat.id = i ∧ cat.kind = ChannelKind.category)
    (sym : String) (hsym : sym = "" ∨ sym = "(synced)") :
    processRow g (flagAttrs permFlags) st ln
      [catName g c, disambiguated_name g c, sym] =
      .ok (if sym = "(synced)" then
        { st with wantSync := wsAdd st.wantSync c, lastChannel := some c }
      else
        { st with newOverwrites := noTouch st.newOverwrites c,
                  lastChannel := some c }) := by
  have hb1 : (disambiguated_name g c == "") = false :=
    beq_eq_false_iff_ne.2 (disamb_ne_empty g c hname)
  unfold processRow
  rw [if_neg (by simp only [List.length_cons]; omega)]
  simp only [List.getD_cons_zero, List.getD_cons_succ]
  rw [if_neg (by rw [hb1]; simp)]
  rw [if_neg (by rw [hb1]; exact Bool.false_ne_true)]
  rw [resolveCatCell g ln c hids hinj hnames hcat]
  show (match channelsLookup g (disambiguated_name g c) with
    | none => Except.error (lineErr ln ("unknown channel '" ++ disambiguated_name g c ++ "'."))
    | some ch =>
      if ch.kind = ChannelKind.category then
        Except.error (lineErr ln ("'" ++ disambiguated_name g c ++ "' is a category."))
      else Except.ok (ch, category g c)).bind _ = _
  rw [channelsLookup_self g c hids hinj hc]
  show (if c.kind = ChannelKind.category then
      Except.error (lineErr ln ("'" ++ disambiguated_name g c ++ "' is a category."))
    else Except.ok (c, category g c)).bind _ = _
  rw [if_neg hkind]
  show (if (decide (c.kind ≠ ChannelKind.category) &&
      !optChanEq (category g c) (category g c)) = true
    then _ else _ : Except String ImpState).bind _ = _
  rw [if_neg (by rw [optChanEq_refl]; simp)]
  rcases hsym with h | h <;> subst h
  · rfl
  · show (if (("(synced)" == "(synced)") &&
        decide (c.kind ≠ ChannelKind.category)) = true
      then _ else _ : Except String ImpState) = _
    rw [if_pos (by simp [hkind])]
    rfl

/-- A string starting with a known character differs from any string
starting differently. -/
theorem prefixed_ne (c0 : Char) (rest : List Char) (x s : String)
    (h : s.data.head? ≠ some c0) : (⟨c0 :: rest⟩ : String) ++ x ≠ s := by
  intro heq
  apply h
  rw [← heq, String.data_append]
  rfl

theorem targetName_ne_synced (t : Target) :
    (targetName t == "(synced)") = false := by
  apply beq_eq_false_iff_ne.2
  cases t with
  | role r =>
    exact prefixed_ne 'R' ('o' :: 'l' :: 'e' :: [' ']) r.name "(synced)" (by decide)
  | member m =>
    exact prefixed_ne 'U' ('s' :: 'e' :: 'r' :: [' '])
      (natToStr m.id ++ " " ++ m.name) "(synced)" (by decide)

theorem targetName_bne_empty (t : Target) : (targetName t != "") = true := by
  have h : (targetName t == "") = false := by
    apply beq_eq_false_iff_ne.2
    cases t with
    | role r =>
      exact prefixed_ne 'R' ('o' :: 'l' :: 'e' :: [' ']) r.name "" (by decide)
    | member m =>
      exact prefixed_ne 'U' ('s' :: 'e' :: 'r' :: [' '])
        (natToStr m.id ++ " " ++ m.name) "" (by decide)
  simp [bne, h]

/-- Processing an overwrite row of a non-category channel block stores the
target with all-zero masks and produces no note. -/
theorem processRow_owRow_chan (g : Guild) (st : ImpState) (ln : Nat)
    (c : Channel)
    (hids : g.channels.Pairwise (fun a b => a.id ≠ b.id))
    (hinj : ∀ c1 ∈ g.channels, ∀ c2 ∈ g.channels,
      disambiguated_name g c1 = disambiguated_name g c2 → c1 = c2)
    (hc : c ∈ g.channels) (hkind : c.kind ≠ ChannelKind.category)
    (hname : c.name ≠ "")
    (hnames : ∀ c2 ∈ g.channels, c2.name ≠ "")
    (hcat : ∀ i, c.categoryId = some i →
      ∃ cat ∈ g.channels, cat.id = i ∧ cat.kind = ChannelKind.category)
    (hroles : g.roles.Pairwise (fun a b => a.name ≠ b.name))
    (hmembers : g.members.Pairwise (fun a b => a.id ≠ b.id))
    (p : Target × Overwrite) (hp : p ∈ c.overwrites)
    (htids : c.overwrites.Pairwise (fun a b => a.1.tid ≠ b.1.tid))
    (htr : ∀ r, p.1 = Target.role r → r ∈ g.roles)
    (htm : ∀ m, p.1 = Target.member m → m ∈ g.members) :
    processRow g (flagAttrs permFlags) st ln
      (catName g c :: disambiguated_name g c :: targetName p.1 ::
        overwriteSymbols p.2) =
      .ok { st with newOverwrites := noSet st.newOverwrites c p.1 (0, 0, 0),
                    lastChannel := some c } := by
  have hb1 : (disambiguated_name g c == "") = false :=
    beq_eq_false_iff_ne.2 (disamb_ne_empty g c hname)
  unfold processRow
  rw [if_neg (by simp only [List.length_cons]; omega)]
  simp only [List.getD_cons_zero, List.getD_cons_succ]
  rw [if_neg (by rw [hb1]; simp)]
  rw [if_neg (by rw [hb1]; exact Bool.false_ne_true)]
  rw [resolveCatCell g ln c hids hinj hnames hcat]
  show (match channelsLookup g (disambiguated_name g c) with
    | none => Except.error (lineErr ln ("unknown channel '" ++ disambiguated_name g c ++ "'."))
    | some ch =>
      if ch.kind = ChannelKind.category then
        Except.error (lineErr ln ("'" ++ disambiguated_name g c ++ "' is a category."))
      else Except.ok (ch, category g c)).bind _ = _
  rw [channelsLookup_self g c hids hinj hc]
  show (if c.kind = ChannelKind.category then
      Except.error (lineErr ln ("'" ++ disambiguated_name g c ++ "' is a category."))
    else Except.ok (c, category g c)).bind _ = _
  rw [if_neg hkind]
  show (if (decide (c.kind ≠ ChannelKind.category) &&
      !optChanEq (category g c) (category g c)) = true
    then _ else _ : Except String ImpState).bind _ = _
  rw [if_neg (by rw [optChanEq_refl]; simp)]
  show (if ((targetName p.1 == "(synced)") &&
      decide (c.kind ≠ ChannelKind.category)) = true
    then _ else _ : Except String ImpState) = _
  rw [if_neg (by rw [targetName_ne_synced]; simp)]
  rw [if_pos (targetName_bne_empty p.1)]
  rw [parseTarget_roundtrip g ln p.1 hroles hmembers htr htm]
  show (computeOverwriteMasks (flagAttrs permFlags) (overwriteSymbols p.2)
      (overwrites_for c p.1).pair.1 (overwrites_for c p.1).pair.2).bind _ = _
  rw [overwrites_for_self c p htids hp]
  show (computeOverwriteMasks (flagAttrs permFlags) (overwriteSymbols p.2)
      p.2.allow p.2.deny).bind _ = _
  rw [computeOverwriteMasks_roundtrip p.2]
  rfl

/-- Processing an overwrite row of a category block stores the target with
all-zero masks and produces no note. -/
theorem processRow_owRow_cat (g : Guild) (st : ImpState) (ln : Nat)
    (c : Channel)
    (hids : g.channels.Pairwise (fun a b => a.id ≠ b.id))
    (hinj : ∀ c1 ∈ g.channels, ∀ c2 ∈ g.channels,
      disambiguated_name g c1 = disambiguated_name g c2 → c1 = c2)
    (hc : c ∈ g.channels) (hkind : c.kind = ChannelKind.category)
    (hname : c.name ≠ "")
    (hroles : g.roles.Pairwise (fun a b => a.name ≠ b.name))
    (hmembers : g.members.Pairwise (fun a b => a.id ≠ b.id))
    (p : Target × Overwrite) (hp : p ∈ c.overwrites)
    (htids : c.overwrites.Pairwise (fun a b => a.1.tid ≠ b.1.tid))
    (htr : ∀ r, p.1 = Target.role r → r ∈ g.roles)
    (htm : ∀ m, p.1 = Target.member m → m ∈ g.members) :
    processRow g (flagAttrs permFlags) st ln
      (disambiguated_name g c :: "" :: targetName p.1 :: overwriteSymbols p.2) =
      .ok { st with newOverwrites := noSet st.newOverwrites c p.1 (0, 0, 0),
                    lastChannel := some c } := by
  have hb0 : (disambiguated_name g c == "") = false :=
    beq_eq_false_iff_ne.2 (disamb_ne_empty g c hname)
  unfold processRow
  rw [if_neg (by simp only [List.length_cons]; omega)]
  simp only [List.getD_cons_zero, List.getD_cons_succ]
  rw [if_neg (by rw [hb0]; simp)]
  rw [if_pos (show ((("" : String) == "")) = true from rfl)]
  rw [channelsLookup_self g c hids hinj hc]
  show (if c.kind ≠ ChannelKind.category then
      Except.error (lineErr ln ("'" ++ disambiguated_name g c ++ "' is not a category."))
    else Except.ok (c, (none : Option Channel))).bind _ = _
  rw [if_neg (by rw [hkind]; simp)]
  show (if (decide (c.kind ≠ ChannelKind.category) &&
      !optChanEq (category g c) none) = true
    then _ else _ : Except String ImpState).bind _ = _
  rw [if_neg (by rw [hkind]; simp)]
  show (if ((targetName p.1 == "(synced)") &&
      decide (c.kind ≠ ChannelKind.category)) = true
    then _ else _ : Except String ImpState) = _
  rw [if_neg (by rw [targetName_ne_synced]; simp)]
  rw [if_pos (targetName_bne_empty p.1)]
  rw [parseTarget_roundtrip g ln p.1 hroles hmembers htr htm]
  show (computeOverwriteMasks (flagAttrs permFlags) (overwriteSymbols p.2)
      (overwrites_for c p.1).pair.1 (overwrites_for c p.1).pair.2).bind _ = _
  rw [overwrites_for_self c p htids hp]
  show (computeOverwriteMasks (flagAttrs permFlags) (overwriteSymbols p.2)
      p.2.allow p.2.deny).bind _ = _
  rw [computeOverwriteMasks_roundtrip p.2]
  rfl

/-- The fully-zero mask entries the re-import stores for a channel: one
per overwrite target, in export (sorted) order. -/
def owEntries (g : Guild) (c : Channel) : List (Target × (Nat × Nat × Nat)) :=
  (sortOverwrites g c.overwrites).map (fun p => (p.1, ((0, 0, 0) : Nat × Nat × Nat)))

/-- Folding the overwrite rows of one channel block accumulates the
all-zero entries in order. -/
theorem processRows_owRows (g : Guild) (c : Channel)
    (rowOf : Target × Overwrite → List String)
    (hstep : ∀ (st : ImpState) (ln : Nat) (p : Target × Overwrite),
      p ∈ c.overwrites →
      processRow g (flagAttrs permFlags) st ln (rowOf p) =
        .ok { st with newOverwrites := noSet st.newOverwrites c p.1 (0, 0, 0),
                      lastChannel := some c }) :
    ∀ (l : List (Target × Overwrite))
      (done : List (Target × (Nat × Nat × Nat)))
      (base : List (Channel × List (Target × (Nat × Nat × Nat))))
      (ln : Nat) (acts : List Action) (out : List String) (ws : List Channel)
      (sm : List (Channel × Option Channel)),
    (∀ p ∈ l, p ∈ c.overwrites) →
    (∀ p ∈ l, ∀ e ∈ done, e.1.tid ≠ p.1.tid) →
    l.Pairwise (fun a b => a.1.tid ≠ b.1.tid) →
    noMem base c = false →
    processRows g (flagAttrs permFlags) (l.map rowOf) ln
      ⟨acts, out, base ++ [(c, done)], ws, sm, some c⟩ =
      .ok ⟨acts, out,
        base ++ [(c, done ++ l.map (fun p => (p.1, ((0, 0, 0) : Nat × Nat × Nat))))],
        ws, sm, some c⟩ := by
  intro l
  induction l with
  | nil =>
    intro done base ln acts out ws sm _ _ _ _
    rw [List.map_nil, List.map_nil, List.append_nil]
    rfl
  | cons p t ih =>
    intro done base ln acts out ws sm hmem hdone hpair hbase
    rw [List.map_cons]
    show (processRow g (flagAttrs permFlags)
        ⟨acts, out, base ++ [(c, done)], ws, sm, some c⟩ ln (rowOf p)).bind
      (processRows g (flagAttrs permFlags) (t.map rowOf) (ln + 1)) = _
    rw [hstep _ ln p (hmem p (by simp))]
    have hkeys : done.any (fun e => e.1.key == p.1.key) = false := by
      rw [List.any_eq_false]
      intro e he
      have hne := hdone p (by simp) e he
      intro hcon
      have hcon2 : e.1.key = p.1.key := by simpa using hcon
      have hkey2 : ∀ t : Target, t.tid = t.key.2 := fun t => by cases t <;> rfl
      exact hne (by rw [hkey2 e.1, hkey2 p.1]; exact congrArg Prod.snd hcon2)
    have hset : noSet (base ++ [(c, done)]) c p.1 (0, 0, 0) =
        base ++ [(c, done ++ [(p.1, (0, 0, 0))])] := by
      rw [noSet_of_last base c done p.1 (0, 0, 0) hbase,
        entriesSet_of_new done p.1 (0, 0, 0) hkeys]
    show processRows g (flagAttrs permFlags) (t.map rowOf) (ln + 1)
      ⟨acts, out, noSet (base ++ [(c, done)]) c p.1 (0, 0, 0), ws, sm, some c⟩ = _
    rw [hset]
    rw [ih (done ++ [(p.1, (0, 0, 0))]) base (ln + 1) acts out ws sm
      (fun q hq => hmem q (by simp [hq]))
      (by
        intro q hq e he
        rcases List.mem_append.1 he with h | h
        · exact hdone q (by simp [hq]) e h
        · simp at h
          rw [h]
          exact fun hcon => (List.pairwise_cons.1 hpair).1 q hq hcon)
      (List.pairwise_cons.1 hpair).2 hbase]
    rw [List.append_assoc]
    rfl

/-- Processing one exported channel block extends the state exactly as the
round-trip requires: a synced channel joins `want_sync`, any other channel
joins `new_overwrites` with all-zero entries for all its targets. -/
theorem processRows_channelBlock (g : Guild) (hwf : WF g) (c : Channel)
    (hc : c ∈ g.channels) :
    ∀ (base : List (Channel × List (Target × (Nat × Nat × Nat))))
      (ln : Nat) (acts : List Action) (out : List String) (ws : List Channel)
      (sm : List (Channel × Option Channel)) (lc : Option Channel),
    noMem base c = false → wsMem ws c = false →
    processRows g (flagAttrs permFlags) (channelRows g c) ln
      ⟨acts, out, base, ws, sm, lc⟩ =
      .ok (if c.synced then ⟨acts, out, base, ws ++ [c], sm, some c⟩
        else ⟨acts, out, base ++ [(c, owEntries g c)], ws, sm, some c⟩) := by
  intro base ln acts out ws sm lc hno hws
  have hsorted_mem : ∀ p ∈ sortOverwrites g c.overwrites, p ∈ c.overwrites :=
    fun p hp => (List.perm_insertionSort (owRel g) c.overwrites).mem_iff.1 hp
  have hsorted_pair : (sortOverwrites g c.overwrites).Pairwise
      (fun a b => a.1.tid ≠ b.1.tid) :=
    ((List.perm_insertionSort (owRel g) c.overwrites).pairwise_iff
      (fun h he => h he.symm)).2 (hwf.targetIds c hc)
  by_cases hsync : c.synced
  · -- synced channels are not categories and export a single row
    have hkind : c.kind ≠ ChannelKind.category := by
      intro hcon
      rw [hwf.catNotSynced c hc hcon] at hsync
      exact Bool.false_ne_true hsync
    have hrows : channelRows g c =
        [[catName g c, disambiguated_name g c, "(synced)"]] := by
      unfold channelRows channelHeader
      rw [if_neg hkind, if_pos hsync, if_pos hsync]
      rfl
    rw [hrows]
    show (processRow g (flagAttrs permFlags) ⟨acts, out, base, ws, sm, lc⟩ ln
        [catName g c, disambiguated_name g c, "(synced)"]).bind
      (processRows g (flagAttrs permFlags) [] (ln + 1)) = _
    rw [processRow_chanHeaderRow g _ ln c hwf.chanIds hwf.disambInj hc hkind
      (hwf.nameNonempty c hc) hwf.nameNonempty (hwf.catValid c hc)
      "(synced)" (Or.inr rfl)]
    rw [if_pos rfl]
    show Except.ok (⟨acts, out, base, wsAdd ws c, sm, some c⟩ : ImpState) = _
    rw [wsAdd_of_new ws c hws, if_pos hsync]
  · have hsyncf : c.synced = false := Bool.eq_false_iff.2 hsync
    rw [if_neg hsync]
    by_cases hkind : c.kind = ChannelKind.category
    · have hrows : channelRows g c =
          [disambiguated_name g c, "", ""] ::
            (sortOverwrites g c.overwrites).map
              (fun p => disambiguated_name g c :: "" :: targetName p.1 ::
                overwriteSymbols p.2) := by
        unfold channelRows channelHeader
        rw [if_pos hkind, if_neg hsync, hsyncf]
        rfl
      rw [hrows]
      show (processRow g (flagAttrs permFlags) ⟨acts, out, base, ws, sm, lc⟩ ln
          [disambiguated_name g c, "", ""]).bind
        (processRows g (flagAttrs permFlags) ((sortOverwrites g c.overwrites).map
          (fun p => disambiguated_name g c :: "" :: targetName p.1 ::
            overwriteSymbols p.2)) (ln + 1)) = _
      rw [processRow_catHeaderRow g _ ln c hwf.chanIds hwf.disambInj hc hkind
        (hwf.nameNonempty c hc)]
      show processRows g (flagAttrs permFlags) ((sortOverwrites g c.overwrites).map
          (fun p => disambiguated_name g c :: "" :: targetName p.1 ::
            overwriteSymbols p.2)) (ln + 1)
        ⟨acts, out, noTouch base c, ws, sm, some c⟩ = _
      rw [noTouch_of_new base c hno]
      rw [processRows_owRows g c _
        (fun st ln2 p hp => processRow_owRow_cat g st ln2 c hwf.chanIds
          hwf.disambInj hc hkind (hwf.nameNonempty c hc) hwf.roleNames
          hwf.memberIds p hp (hwf.targetIds c hc)
          (hwf.targetRoles c hc p hp) (hwf.targetMembers c hc p hp))
        (sortOverwrites g c.overwrites) [] base (ln + 1) acts out ws sm
        hsorted_mem (by intro q _ e he; cases he) hsorted_pair hno]
      rfl
    · have hrows : channelRows g c =
          [catName g c, disambiguated_name g c, ""] ::
            (sortOverwrites g c.overwrites).map
              (fun p => catName g c :: disambiguated_name g c ::
                targetName p.1 :: overwriteSymbols p.2) := by
        unfold channelRows channelHeader
        rw [if_neg hkind, if_neg hsync, hsyncf]
        rfl
      rw [hrows]
      show (processRow g (flagAttrs permFlags) ⟨acts, out, base, ws, sm, lc⟩ ln
          [catName g c, disambiguated_name g c, ""]).bind
        (processRows g (flagAttrs permFlags) ((sortOverwrites g c.overwrites).map
          (fun p => catName g c :: disambiguated_name g c :: targetName p.1 ::
            overwriteSymbols p.2)) (ln + 1)) = _
      rw [processRow_chanHeaderRow g _ ln c hwf.chanIds hwf.disambInj hc hkind
        (hwf.nameNonempty c hc) hwf.nameNonempty (hwf.catValid c hc)
        "" (Or.inl rfl)]
      rw [if_neg (by decide)]
      show processRows g (flagAttrs permFlags) ((sortOverwrites g c.overwrites).map
          (fun p => catName g c :: disambiguated_name g c :: targetName p.1 ::
            overwriteSymbols p.2)) (ln + 1)
        ⟨acts, out, noTouch base c, ws, sm, some c⟩ = _
      rw [noTouch_of_new base c hno]
      rw [processRows_owRows g c _
        (fun st ln2 p hp => processRow_owRow_chan g st ln2 c hwf.chanIds
          hwf.disambInj hc hkind (hwf.nameNonempty c hc) hwf.nameNonempty
          (hwf.catValid c hc) hwf.roleNames hwf.memberIds p hp
          (hwf.targetIds c hc) (hwf.targetRoles c hc p hp)
          (hwf.targetMembers c hc p hp))
        (sortOverwrites g c.overwrites) [] base (ln + 1) acts out ws sm
        hsorted_mem (by intro q _ e he; cases he) hsorted_pair hno]
      rfl

/-- The exported role rows re-import with no state change. -/
theorem processRows_roleRows (g : Guild)
    (hp : g.roles.Pairwise (fun a b => a.name ≠ b.name)) :
    ∀ (rs : List Role) (ln : Nat) (st : ImpState),
    (∀ r ∈ rs, r ∈ g.roles) →
    processRows g (flagAttrs permFlags)
      (rs.map (fun r => ["", "", "Role " ++ r.name] ++ roleSymbols r.permissions))
      ln st = .ok st := by
  intro rs
  induction rs with
  | nil => intro ln st _; rfl
  | cons r t ih =>
    intro ln st hmem
    rw [List.map_cons]
    show (processRow g (flagAttrs permFlags) st ln
        ("" :: "" :: ("Role " ++ r.name) :: roleSymbols r.permissions)).bind
      (processRows g (flagAttrs permFlags) _ (ln + 1)) = _
    rw [processRow_roleRow g st ln r hp (hmem r (by simp))]
    exact ih (ln + 1) st (fun q hq => hmem q (by simp [hq]))

/-- Folding all channel blocks: synced channels land in `want_sync`, the
rest in `new_overwrites` with all-zero entries; nothing else changes, and
the leftover `channel` variable holds the last channel. -/
theorem processRows_blocks (g : Guild) (hwf : WF g) :
    ∀ (cs : List Channel)
      (base : List (Channel × List (Target × (Nat × Nat × Nat))))
      (ws : List Channel) (ln : Nat) (acts : List Action) (out : List String)
      (sm : List (Channel × Option Channel)) (lc : Option Channel),
    (∀ c ∈ cs, c ∈ g.channels) →
    cs.Pairwise (fun a b => a.id ≠ b.id) →
    (∀ c ∈ cs, noMem base c = false) →
    (∀ c ∈ cs, wsMem ws c = false) →
    processRows g (flagAttrs permFlags) (cs.flatMap (channelRows g)) ln
      ⟨acts, out, base, ws, sm, lc⟩ =
      .ok ⟨acts, out,
        base ++ (cs.filter (fun c => !c.synced)).map (fun c => (c, owEntries g c)),
        ws ++ cs.filter (fun c => c.synced), sm,
        (match cs.getLast? with | none => lc | some c => some c)⟩ := by
  intro cs
  induction cs with
  | nil =>
    intro base ws ln acts out sm lc _ _ _ _
    show Except.ok _ = _
    rw [List.filter_nil, List.filter_nil, List.map_nil, List.append_nil,
      List.append_nil]
    rfl
  | cons c t ih =>
    intro base ws ln acts out sm lc hmem hpair hno hws
    rw [List.flatMap_cons]
    rw [processRows_append]
    rw [processRows_channelBlock g hwf c (hmem c (by simp)) base ln acts out ws
      sm lc (hno c (by simp)) (hws c (by simp))]
    have hidt : ∀ c2 ∈ t, (c.id == c2.id) = false := by
      intro c2 h2
      exact beq_eq_false_iff_ne.2 ((List.pairwise_cons.1 hpair).1 c2 h2)
    by_cases hsync : c.synced
    · rw [if_pos hsync]
      show processRows g (flagAttrs permFlags) (t.flatMap (channelRows g)) _
        ⟨acts, out, base, ws ++ [c], sm, some c⟩ = _
      rw [ih base (ws ++ [c]) _ acts out sm (some c)
        (fun q hq => hmem q (by simp [hq]))
        (List.pairwise_cons.1 hpair).2
        (fun q hq => hno q (by simp [hq]))
        (by
          intro q hq
          rw [wsMem_append, hws q (by simp [hq])]
          show (false || wsMem [c] q) = false
          simp only [Bool.false_or]
          unfold wsMem
          simp only [List.any_cons, List.any_nil, Bool.or_false]
          rw [show (c.id == q.id) = false from hidt q hq])]
      rw [List.filter_cons_of_neg (by rw [hsync]; simp),
        List.filter_cons_of_pos (by rw [hsync])]
      rw [List.append_assoc]
      cases t with
      | nil => rfl
      | cons c2 t2 =>
        rw [List.getLast?_cons_cons]
        cases hgl : (c2 :: t2).getLast? with
        | none => exact absurd (List.getLast?_eq_none_iff.1 hgl) (by simp)
        | some x => rfl
    · have hsyncf : c.synced = false := Bool.eq_false_iff.2 hsync
      rw [if_neg hsync]
      show processRows g (flagAttrs permFlags) (t.flatMap (channelRows g)) _
        ⟨acts, out, base ++ [(c, owEntries g c)], ws, sm, some c⟩ = _
      rw [ih (base ++ [(c, owEntries g c)]) ws _ acts out sm (some c)
        (fun q hq => hmem q (by simp [hq]))
        (List.pairwise_cons.1 hpair).2
        (by
          intro q hq
          rw [noMem_append, hno q (by simp [hq])]
          show (false || noMem [(c, owEntries g c)] q) = false
          simp only [Bool.false_or]
          unfold noMem
          simp only [List.any_cons, List.any_nil, Bool.or_false]
          rw [show (c.id == q.id) = false from hidt q hq])
        (fun q hq => hws q (by simp [hq]))]
      rw [List.filter_cons_of_pos (by rw [hsyncf]; rfl),
        List.filter_cons_of_neg (by rw [hsyncf]; simp)]
      rw [List.map_cons, List.append_assoc]
      cases t with
      | nil => rfl
      | cons c2 t2 =>
        rw [List.getLast?_cons_cons]
        cases hgl : (c2 :: t2).getLast? with
        | none => exact absurd (List.getLast?_eq_none_iff.1 hgl) (by simp)
        | some x => rfl

/-- The overwrite pass over all-zero entries that cover every live target
adds no note, leaves `overwrites_changed` unchanged, and only appends
overwrite-edit actions carrying the all-zero entries. -/
theorem overwritePass_zero (ws : List Channel) :
    ∀ (l : List (Channel × List (Target × (Nat × Nat × Nat))))
      (acts : List Action) (out : List String) (oc : List Channel)
      (stale : Option Channel),
    (∀ e ∈ l, ∀ p ∈ e.2, p.2 = ((0, 0, 0) : Nat × Nat × Nat)) →
    (∀ e ∈ l, ∀ q ∈ e.1.overwrites, ∃ p ∈ e.2, p.1.key = q.1.key) →
    ∃ (acts2 : List Action) (stale2 : Option Channel),
      overwritePass ws l (acts, out, oc, stale) =
        (acts ++ acts2, out, oc, stale2) ∧
      ∀ a ∈ acts2, ∃ cid entries, a = Action.editOverwrites cid entries ∧
        ∀ p ∈ entries, p.2 = ((0, 0, 0) : Nat × Nat × Nat) := by
  intro l
  induction l with
  | nil =>
    intro acts out oc stale _ _
    exact ⟨[], stale, by rw [List.append_nil]; rfl, by intro a ha; cases ha⟩
  | cons e t ih =>
    intro acts out oc stale hzero hcover
    obtain ⟨chan, entries⟩ := e
    unfold overwritePass
    by_cases hstale : (match stale with
      | some c => wsMem ws c
      | none => false) = true
    · rw [if_pos hstale]
      obtain ⟨acts2, stale2, heq, hprop⟩ := ih acts out oc stale
        (fun e2 he2 => hzero e2 (by simp [he2]))
        (fun e2 he2 => hcover e2 (by simp [he2]))
      exact ⟨acts2, stale2, heq, hprop⟩
    · rw [if_neg hstale]
      have hany : entries.any
          (fun p => decide (p.2.1 ≠ 0 ∨ p.2.2.1 ≠ 0 ∨ p.2.2.2 ≠ 0)) = false := by
        rw [List.any_eq_false]
        intro p hp
        rw [hzero (chan, entries) (by simp) p hp]
        decide
      have hrem : chan.overwrites.filter
          (fun q => !entries.any (fun p => p.1.key == q.1.key)) = [] := by
        rw [List.filter_eq_nil_iff]
        intro q hq
        obtain ⟨p, hpmem, hpkey⟩ := hcover (chan, entries) (by simp) q hq
        have : entries.any (fun p => p.1.key == q.1.key) = true := by
          rw [List.any_eq_true]
          exact ⟨p, hpmem, by simp [hpkey]⟩
        rw [this]
        decide
      dsimp only
      rw [if_neg (show ¬((entries.any fun p =>
          decide (p.2.1 ≠ 0 ∨ p.2.2.1 ≠ 0 ∨ p.2.2.2 ≠ 0)) = true) from by
        rw [hany]; exact Bool.false_ne_true)]
      rw [hrem]
      rw [List.map_nil, List.append_nil]
      rw [if_neg (show ¬(([] : List (Target × Overwrite)) ≠ []) from by simp)]
      obtain ⟨acts2, stale2, heq, hprop⟩ :=
        ih (acts ++ [Action.editOverwrites chan.id entries]) out oc (some chan)
          (fun e2 he2 => hzero e2 (by simp [he2]))
          (fun e2 he2 => hcover e2 (by simp [he2]))
      refine ⟨[Action.editOverwrites chan.id entries] ++ acts2, stale2, ?_, ?_⟩
      · rw [heq, List.append_assoc]
      · intro a ha
        rcases List.mem_append.1 ha with h | h
        · have hh : a = Action.editOverwrites chan.id entries := by simpa using h
          refine ⟨chan.id, entries, hh, ?_⟩
          intro p hp
          exact hzero (chan, entries) (by simp) p hp
        · exact hprop a h

/-- The sync pass is a no-op when nothing moved, no overwrites changed,
and every listed channel is already synced under an existing category. -/
theorem syncPass_noop (g : Guild) :
    ∀ (ws : List Channel) (acts : List Action) (out : List String),
    (∀ c ∈ ws, c.synced = true ∧ (category g c).isSome) →
    syncPass g [] [] ws (acts, out) = .ok (acts, out) := by
  intro ws
  induction ws with
  | nil => intro acts out _; rfl
  | cons c t ih =>
    intro acts out hall
    unfold syncPass
    by_cases hkind : c.kind = ChannelKind.category
    · rw [if_pos hkind]
      exact ih acts out (fun q hq => hall q (by simp [hq]))
    · rw [if_neg hkind]
      have heff : effectiveCategory g [] c = category g c := rfl
      obtain ⟨hsync, hsome⟩ := hall c (by simp)
      cases hcat : category g c with
      | none => rw [hcat] at hsome; cases hsome
      | some nc =>
        dsimp only
        rw [show effectiveCategory g [] c = some nc from by rw [heff, hcat]]
        show (if ¬c.synced = true ∨ smMem [] c = true ∨ ocMem [] nc = true then
            syncPass g [] [] t
              (acts ++ [Action.syncChannel c.id],
                out ++ ["Sync " ++ channelMention c.id ++ " with " ++
                  channelMention nc.id])
          else syncPass g [] [] t (acts, out)) = Except.ok (acts, out)
        rw [if_neg (by
          rw [hsync]
          simp [smMem, ocMem])]
        exact ih acts out (fun q hq => hall q (by simp [hq]))

/-- Unfolding `importperms` past a valid header into the two passes over
the state the row loop produced. -/
theorem importperms_expand (g : Guild) (hd : List String)
    (data : List (List String)) (fl : List (PermAttr × String)) (st : ImpState)
    (hhd : ¬(hd.length < 3 ∨ hd.getD 0 "" ≠ "Category" ∨
      hd.getD 1 "" ≠ "Channel" ∨ hd.getD 2 "" ≠ "Role/User"))
    (hfl : parseFlags (hd.drop 3) = .ok fl)
    (hst : processRows g fl data 2 initState = .ok st) :
    importperms g (hd :: data) =
      (syncPass g
        (overwritePass st.wantSync st.newOverwrites
          (st.actions, st.output, [], st.lastChannel)).2.2.1
        st.seenMoved st.wantSync
        ((overwritePass st.wantSync st.newOverwrites
          (st.actions, st.output, [], st.lastChannel)).1,
         (overwritePass st.wantSync st.newOverwrites
          (st.actions, st.output, [], st.lastChannel)).2.1)).bind
        (fun fin => Except.ok (fin.2, fin.1)) := by
  unfold importperms
  dsimp only
  rw [if_neg hhd, hfl]
  show (processRows g fl data 2 initState).bind _ = _
  rw [hst]
  rfl

/-- A category channel for the skipped-second-pass example. -/
def exChanCatRT : Channel := ⟨3, "c", .category, 0, none, false, []⟩

/-- A text channel synced under that category: its block is exported last,
so the leftover `channel` variable entering the second pass is synced. -/
def exChanSyncRT : Channel := ⟨1, "a", .text, 0, some 3, true, []⟩

/-- The skipped-second-pass example guild. -/
def exGuildSkipRT : Guild := ⟨[], [exChanCatRT, exChanSyncRT], []⟩

/-- The stale-variable guard can also skip the second pass entirely: on a
guild whose *last* exported channel block is synced, the round trip
schedules no action at all, even though the guild's category channel is
touched and not synced.  (So the round trip pins down neither `zero
actions` nor `one no-op edit per touched non-synced channel`; what is
invariant — and proved below — is that every action it does schedule is
a no-op overwrite edit.) -/
theorem roundtrip_skip_schedules_nothing :
    importperms exGuildSkipRT (exportperms exGuildSkipRT) = .ok ([], []) := by
  decide

/-- **C1, amended.** Round-tripping a well-formed guild — exporting and
re-importing the unmodified CSV — succeeds, computes *zero change notes*,
and schedules only semantic no-ops: every scheduled action is an
overwrite-edit all of whose entries carry all-zero add/remove/reset
masks.  The original claim's `zero scheduled actions` is refuted by the
counterexample above, where one such no-op edit is scheduled; nothing
stronger about the action count holds, since the stale guard can also
skip the second pass entirely (`roundtrip_skip_schedules_nothing`). -/
theorem C1_roundtrip_amended (g : Guild) (hwf : WF g) :
    ∃ acts : List Action, importperms g (exportperms g) = .ok ([], acts) ∧
      ∀ a ∈ acts, ∃ cid entries, a = Action.editOverwrites cid entries ∧
        ∀ p ∈ entries, p.2 = ((0, 0, 0) : Nat × Nat × Nat) := by
  have hmem : ∀ c ∈ sortChannels g g.channels, c ∈ g.channels := fun c hc =>
    (List.perm_insertionSort (chanRel g) g.channels).mem_iff.1 hc
  have hpair : (sortChannels g g.channels).Pairwise (fun a b => a.id ≠ b.id) :=
    ((List.perm_insertionSort (chanRel g) g.channels).pairwise_iff
      (fun h he => h he.symm)).2 hwf.chanIds
  have hst : processRows g (flagAttrs permFlags)
      (g.roles.map (fun r =>
        ["", "", "Role " ++ r.name] ++ roleSymbols r.permissions)
        ++ (sortChannels g g.channels).flatMap (channelRows g)) 2 initState =
      .ok ⟨[], [],
        ((sortChannels g g.channels).filter (fun c => !c.synced)).map
          (fun c => (c, owEntries g c)),
        (sortChannels g g.channels).filter (fun c => c.synced), [],
        (sortChannels g g.channels).getLast?⟩ := by
    rw [processRows_append]
    rw [processRows_roleRows g hwf.roleNames g.roles 2 initState
      (fun r hr => hr)]
    show processRows g (flagAttrs permFlags)
      ((sortChannels g g.channels).flatMap (channelRows g)) _
      ⟨[], [], [], [], [], none⟩ = _
    rw [processRows_blocks g hwf (sortChannels g g.channels) [] [] _ [] [] []
      none hmem hpair (fun c _ => rfl) (fun c _ => rfl)]
    cases (sortChannels g g.channels).getLast? <;> rfl
  have hz : ∀ e ∈ ((sortChannels g g.channels).filter
        (fun c => !c.synced)).map (fun c => (c, owEntries g c)),
      ∀ p ∈ e.2, p.2 = ((0, 0, 0) : Nat × Nat × Nat) := by
    intro e he p hp
    obtain ⟨c, _, rfl⟩ := List.mem_map.1 he
    obtain ⟨q, _, rfl⟩ := List.mem_map.1
      (show p ∈ (sortOverwrites g c.overwrites).map
        (fun p => (p.1, ((0, 0, 0) : Nat × Nat × Nat))) from hp)
    rfl
  have hcov : ∀ e ∈ ((sortChannels g g.channels).filter
        (fun c => !c.synced)).map (fun c => (c, owEntries g c)),
      ∀ q ∈ e.1.overwrites, ∃ p ∈ e.2, p.1.key = q.1.key := by
    intro e he q hq
    obtain ⟨c, _, rfl⟩ := List.mem_map.1 he
    refine ⟨(q.1, ((0, 0, 0) : Nat × Nat × Nat)), ?_, rfl⟩
    exact List.mem_map.2 ⟨q,
      (List.perm_insertionSort (owRel g) c.overwrites).mem_iff.2 hq, rfl⟩
  obtain ⟨acts2, stale2, hop, hprop⟩ := overwritePass_zero
    ((sortChannels g g.channels).filter (fun c => c.synced))
    (((sortChannels g g.channels).filter (fun c => !c.synced)).map
      (fun c => (c, owEntries g c)))
    [] [] [] ((sortChannels g g.channels).getLast?) hz hcov
  have hall : ∀ c ∈ (sortChannels g g.channels).filter (fun c => c.synced),
      c.synced = true ∧ (category g c).isSome = true := by
    intro c hc
    have hcg : c ∈ g.channels := hmem c (List.mem_of_mem_filter hc)
    have hsync : c.synced = true := by simpa using List.of_mem_filter hc
    refine ⟨hsync, ?_⟩
    cases hcid : c.categoryId with
    | none => exact absurd hcid (hwf.syncedHasCat c hcg hsync)
    | some i =>
      obtain ⟨cat, hcat, _⟩ := category_resolves g c i hwf.chanIds
        (hwf.catValid c hcg i hcid) hcid
      rw [hcat]
      rfl
  refine ⟨acts2, ?_, hprop⟩
  show importperms g
      ((["Category", "Channel", "Role/User"] ++ permFlags.map Prod.fst) ::
        (g.roles.map (fun r =>
          ["", "", "Role " ++ r.name] ++ roleSymbols r.permissions)
          ++ (sortChannels g g.channels).flatMap (channelRows g))) =
    Except.ok ([], acts2)
  rw [importperms_expand g
      (["Category", "Channel", "Role/User"] ++ permFlags.map Prod.fst)
      (g.roles.map (fun r =>
        ["", "", "Role " ++ r.name] ++ roleSymbols r.permissions)
        ++ (sortChannels g g.channels).flatMap (channelRows g))
      (flagAttrs permFlags)
      ⟨[], [],
        ((sortChannels g g.channels).filter (fun c => !c.synced)).map
          (fun c => (c, owEntries g c)),
        (sortChannels g g.channels).filter (fun c => c.synced), [],
        (sortChannels g g.channels).getLast?⟩
      (by decide) parseFlags_canonical hst]
  dsimp only
  rw [hop]
  dsimp only [List.nil_append]
  rw [syncPass_noop g _ acts2 [] hall]
  rfl

/-- Witness: the amended round-trip statement instantiated at the C1
example guild, whose well-formedness is checked field by field. -/
theorem C1_roundtrip_amended_witness :
    ∃ acts : List Action,
      importperms exGuildC1 (exportperms exGuildC1) = .ok ([], acts) ∧
      ∀ a ∈ acts, ∃ cid entries, a = Action.editOverwrites cid entries ∧
        ∀ p ∈ entries, p.2 = ((0, 0, 0) : Nat × Nat × Nat) := by
  refine C1_roundtrip_amended exGuildC1
    ⟨?_, ?_, ?_, ?_, ?_, ?_, ?_, ?_, ?_, ?_, ?_⟩
  · decide
  · decide
  · decide
  · decide
  · decide
  · intro c hc i hcid
    have hc2 : c = exChanC1 := by simpa [exGuildC1] using hc
    subst hc2
    exact Option.noConfusion hcid
  · decide
  · decide
  · intro c hc p hp r hr
    have hc2 : c = exChanC1 := by simpa [exGuildC1] using hc
    subst hc2
    cases hp
  · intro c hc p hp m hm
    have hc2 : c = exChanC1 := by simpa [exGuildC1] using hc
    subst hc2
    cases hp
  · intro c hc
    have hc2 : c = exChanC1 := by simpa [exGuildC1] using hc
    subst hc2
    exact List.Pairwise.nil

end BulkPerms
